import Mathlib

/-!
Verification of `merge_micmac_xml.py`: a shallow embedding of the script's
record parser (`parse_xml_file`), merge engine (`merge_xml_files`), canonical
writer (`write_xml_output`) and filter-list parser (`parse_list`), together
with theorems settling the specification claims.

Modelling conventions:
* XML input is embedded at the ElementTree level: an element's `text` is
  `Option String` (`none` models ElementTree's `None` for an empty element),
  and a `find` result is `Option` of that.
* Python `float` values are modelled by `PyFloat`: a sign and an exact
  nonnegative decimal magnitude (a `ℚ` built with `mkRat`) for finite values,
  or a signed infinity.  `float(str)` is modelled for the standard decimal
  notations (sign, digits, fraction, exponent); a magnitude at or above the
  binary64 overflow threshold `2^1024 - 2^970` converts to infinity, as
  CPython's correctly rounded conversion does (`float("1e400")` is `inf`
  with no error raised), and the sign is kept even at magnitude zero
  (`float("-0.0")` prints as `-0.00000000000000`).  Finite magnitudes are
  carried as exact rationals rather than rounded to a 53-bit significand:
  that rounding never changes the shape of `%.14f` output (a sign, digits,
  a point, 14 digits), and every concrete value this development evaluates
  is exactly representable, so no stated property depends on it.  The
  literal tokens `inf`/`nan`, underscore separators and non-ASCII digits
  are outside the model.
* Uncaught Python exceptions (`AttributeError` from `None.strip()` /
  `None.isdigit()`, `TypeError` from ordering `None` against `str`) are
  modelled by a `crashed` flag / `Except` error: once raised, nothing further
  executes.
* Diagnostics printed to stderr are modelled as a `List Diag` in print order.
-/

set_option maxRecDepth 8000

/-! ### Python string primitives -/

/-- ASCII whitespace as recognised by `str.strip()` / `str.split()`
(the model is restricted to ASCII whitespace). -/
def isPySpace (c : Char) : Bool :=
  c = ' ' || c = '\t' || c = '\n' || c = '\r' || c = '\x0b' || c = '\x0c'

/-- Python `str.strip()`. -/
def pyStrip (s : String) : String :=
  String.mk (((s.data.dropWhile isPySpace).reverse.dropWhile isPySpace).reverse)

/-- Worker for `str.split()` (split on whitespace runs, no empty tokens):
first argument is the remaining input, second the current token reversed. -/
def splitWsAux : List Char → List Char → List String
  | [], cur => if cur.isEmpty then [] else [String.mk cur.reverse]
  | c :: r, cur =>
    if isPySpace c then
      if cur.isEmpty then splitWsAux r [] else String.mk cur.reverse :: splitWsAux r []
    else splitWsAux r (c :: cur)

/-- Python `str.split()` with no separator argument. -/
def pySplit (s : String) : List String := splitWsAux s.data []

/-- Strict lexicographic comparison of char lists by code point,
as Python `<` on `str`. -/
def listStrLt : List Char → List Char → Bool
  | [], [] => false
  | [], _ :: _ => true
  | _ :: _, [] => false
  | a :: as, b :: bs => if a < b then true else if b < a then false else listStrLt as bs

/-- Python `str` `<`. -/
def pyStrLt (a b : String) : Bool := listStrLt a.data b.data

/-- Python `str.isdigit()` (ASCII digits; non-ASCII digit categories are
outside the model). -/
def pyIsdigit (s : String) : Bool := !s.data.isEmpty && s.data.all Char.isDigit

/-! ### Python `float`: parsing and `%.14f` formatting -/

/-- A CPython `float` as the script can store one: a sign with an exact
nonnegative decimal magnitude, or a signed infinity.  (`nan` is not reachable
here: the literal tokens `inf`/`nan` are outside the model and no arithmetic
is performed on stored values.) -/
inductive PyFloat where
  /-- A finite value: sign bit and nonnegative exact magnitude. -/
  | finite (neg : Bool) (mag : ℚ) : PyFloat
  /-- A signed infinity, produced by overflow of `float(str)`. -/
  | inf (neg : Bool) : PyFloat
deriving DecidableEq

/-- Numeric value of a list of ASCII digits, most significant first. -/
def natOfDigits (l : List Char) : Nat :=
  l.foldl (fun a c => a * 10 + (c.toNat - '0'.toNat)) 0

/-- The IEEE-754 binary64 overflow threshold for correctly rounded decimal
conversion: the midpoint between the largest finite double
`(2^53 - 1) * 2^971` and `2^1024`.  Round-half-even sends the midpoint to the
even significand `2^1024`, so a magnitude at or above this value converts
to infinity. -/
def ovThreshold : ℚ := mkRat ((2 ^ 1024 - 2 ^ 970 : Nat) : Int) 1

/-- Wrap a sign and an exact decimal magnitude as the `float(str)` result:
infinity on overflow (CPython's conversion saturates without raising), the
exact finite value below the threshold. -/
def floatOfMag (neg : Bool) (mag : ℚ) : PyFloat :=
  if mag < ovThreshold then .finite neg mag else .inf neg

/-- Model of Python `float(token)` on a whitespace-free token: optional sign,
digits with optional fraction, optional exponent.  Returns the value (with
an over-threshold magnitude saturating to infinity), or `none` for a
`ValueError`. -/
def pyFloat (s : String) : Option PyFloat :=
  let cs := s.data
  let sgn := match cs with
    | '-' :: r => (true, r)
    | '+' :: r => (false, r)
    | r => (false, r)
  let neg := sgn.1
  let ip := sgn.2.takeWhile Char.isDigit
  let cs1 := sgn.2.dropWhile Char.isDigit
  let frac := match cs1 with
    | '.' :: r => (r.takeWhile Char.isDigit, r.dropWhile Char.isDigit)
    | r => ([], r)
  let fp := frac.1
  if ip.isEmpty && fp.isEmpty then none else
  let mant : Nat := natOfDigits (ip ++ fp)
  match frac.2 with
  | [] => some (floatOfMag neg (mkRat (mant : Int) (10 ^ fp.length)))
  | e :: r =>
    if e == 'e' || e == 'E' then
      let esgn := match r with
        | '-' :: r' => (true, r')
        | '+' :: r' => (false, r')
        | r' => (false, r')
      let ed := esgn.2.takeWhile Char.isDigit
      let rest := esgn.2.dropWhile Char.isDigit
      if ed.isEmpty || !rest.isEmpty then none
      else
        let ev := natOfDigits ed
        if esgn.1 then some (floatOfMag neg (mkRat (mant : Int) (10 ^ fp.length * 10 ^ ev)))
        else some (floatOfMag neg (mkRat ((mant * 10 ^ ev : Nat) : Int) (10 ^ fp.length)))
    else none

/-- Decimal digits of `n`, most significant first, via fuel-bounded structural
recursion (`fuel = n + 1` always suffices). -/
def natDigitsAux : Nat → Nat → List Char
  | 0, _ => []
  | fuel + 1, n =>
    if n < 10 then [Nat.digitChar n]
    else natDigitsAux fuel (n / 10) ++ [Nat.digitChar (n % 10)]

/-- Decimal digits of `n`, most significant first. -/
def natDigits (n : Nat) : List Char := natDigitsAux (n + 1) n

/-- The 14 fractional digits of `fp < 10^14`, most significant first. -/
def frac14digits (fp : Nat) : List Char :=
  (List.range 14).map (fun i => Nat.digitChar (fp / 10 ^ (13 - i) % 10))

/-- Python `%.14f` applied to the magnitude `num/den` (integer arithmetic only:
scale by `10^14`, round half-to-even, print with exactly 14 fractional
digits). -/
def fmt14Mag (num den : Nat) : String :=
  let scaled : Nat := num * 10 ^ 14
  let fl : Nat := scaled / den
  let r2 : Nat := 2 * (scaled % den)
  let n : Nat :=
    if den < r2 then fl + 1
    else if r2 < den then fl
    else if fl % 2 = 0 then fl else fl + 1
  String.mk (natDigits (n / 10 ^ 14)) ++ "." ++ String.mk (frac14digits (n % 10 ^ 14))

/-- Model of the f-string conversion `f"{v:.14f}"`: sign, then either the
magnitude with exactly 14 fractional digits, or the text `inf` (CPython
prints `inf`/`-inf` for an infinite value regardless of the precision
field).  (The script formats the IEEE double; the model formats the exact
magnitude carried by the parser, which agrees on all values exactly
representable at this precision.) -/
def fmt14 : PyFloat → String
  | .finite neg mag => (if neg then "-" else "") ++ fmt14Mag mag.num.natAbs mag.den
  | .inf neg => (if neg then "-" else "") ++ "inf"

/-- The `PtIm` text written for one point: `f"{x:.14f} {y:.14f}"`. -/
def fmtPair (c : PyFloat × PyFloat) : String := fmt14 c.1 ++ " " ++ fmt14 c.2

/-! ### Data model -/

/-- A 2-D pixel coordinate `(x, y)`. -/
abbrev Coords := PyFloat × PyFloat

/-- The per-image mapping `{point_id: (x, y)}`: an insertion-ordered
association list, as a Python `dict`.  Keys are `Option String` because an
ElementTree text node may be `None`. -/
abbrev PtMap := List (Option String × Coords)

/-- The mapping `{image_name: {point_id: (x, y)}}`. -/
abbrev ImgDict := List (Option String × PtMap)

/-- One stderr diagnostic of the script. -/
inductive Diag where
  /-- Message "Error parsing ...": `ET.ParseError`. -/
  | parseFailure : Diag
  /-- Message "File not found ..." from the handler inside `parse_xml_file`. -/
  | fileNotFound : Diag
  /-- Message "... does not have SetOfMesureAppuisFlottants root element". -/
  | schemaMismatch : Diag
  /-- Message "... does not exist, skipping" from `merge_xml_files`. -/
  | missingSource : Diag
  /-- Message "Missing NameIm ..., skipping image". -/
  | missingNameIm : Diag
  /-- Message "Invalid OneMesureAF1I ...": missing `NamePt` or `PtIm` child. -/
  | missingField : Diag
  /-- Message "Invalid coordinates format ...": fewer than two tokens. -/
  | badCoordFormat : Diag
  /-- Message "Non-numerical coordinates ...": `float()` raised `ValueError`. -/
  | nonNumeric : Diag
  /-- Message "Duplicate point ... in image ..., keeping first occurrence"
  (within one file). -/
  | dupInSource (img pt : Option String) : Diag
  /-- Message "Point ... already exists in image ..., keeping first occurrence"
  (across files, in `merge_xml_files`). -/
  | dupAcross (img pt : Option String) : Diag
deriving DecidableEq

/-- Running state of a parse or merge: diagnostics printed so far, the
accumulated mapping, and whether an uncaught exception has been raised. -/
structure RunSt where
  diags : List Diag
  data : ImgDict
  crashed : Bool
deriving DecidableEq

/-- One `OneMesureAF1I` element: the `find` results for `NamePt` and `PtIm`
(`none` = child element absent; `some t` = child present with text `t`,
where `t = none` models an empty element). -/
structure OneMesure where
  namePt : Option (Option String)
  ptIm : Option (Option String)
deriving DecidableEq

/-- One `MesureAppuiFlottant1Im` element. -/
structure ImageElem where
  nameIm : Option (Option String)
  mesures : List OneMesure
deriving DecidableEq

/-- One input file as seen by the script. -/
inductive FileInput where
  /-- `os.path.isfile` is false. -/
  | missing : FileInput
  /-- `ET.parse` raises `ET.ParseError`. -/
  | unparsable : FileInput
  /-- Well-formed XML with the given root tag and child elements. -/
  | parsed (rootTag : String) (images : List ImageElem) : FileInput
deriving DecidableEq

/-! ### Association-list operations (Python `dict` semantics) -/

/-- Dictionary lookup `d[k]` in an insertion-ordered mapping. -/
def lookupA {β : Type} : List (Option String × β) → Option String → Option β
  | [], _ => none
  | (k', v) :: r, k => if k' = k then some v else lookupA r k

/-- Assignment `images_data[img][pt] = c`: append `pt` to the image's mapping, creating
the image entry at the end if absent.  (The script only ever assigns a key
that is not yet present, so plain append is the exact `dict` behaviour; the
`defaultdict` auto-creation of an image entry always coincides with an
insertion, since the membership test that triggers it is immediately
followed by a duplicate diagnostic — image already present — or by this
assignment.) -/
def insertPt : ImgDict → Option String → Option String → Coords → ImgDict
  | [], img, pt, c => [(img, [(pt, c)])]
  | (i, m) :: r, img, pt, c =>
    if i = img then (i, m ++ [(pt, c)]) :: r
    else (i, m) :: insertPt r img pt c

/-- Two-level lookup `data[img][pt]`. -/
def lookup2 (a : ImgDict) (img pt : Option String) : Option Coords :=
  match lookupA a img with
  | none => none
  | some m => lookupA m pt

/-! ### `parse_xml_file` -/

/-- The expected root tag. -/
def rootTag : String := "SetOfMesureAppuisFlottants"

/-- Append one diagnostic. -/
def addDiag (st : RunSt) (d : Diag) : RunSt := { st with diags := st.diags ++ [d] }

/-- Process one `OneMesureAF1I` element for image `img`
(`parse_xml_file`, inner loop body). -/
def parseMeasure (img : Option String) (st : RunSt) (m : OneMesure) : RunSt :=
  if st.crashed then st else
  match m.namePt, m.ptIm with
  | none, _ => addDiag st .missingField
  | some _, none => addDiag st .missingField
  | some ptId, some ptImText =>
    match ptImText with
    | none => { st with crashed := true }  -- pt_im_elem.text.strip(): AttributeError
    | some t =>
      match pySplit (pyStrip t) with
      | c0 :: c1 :: _ =>
        match pyFloat c0 with
        | none => addDiag st .nonNumeric
        | some x =>
          match pyFloat c1 with
          | none => addDiag st .nonNumeric
          | some y =>
            if (lookup2 st.data img ptId).isSome then
              addDiag st (.dupInSource img ptId)
            else
              { st with data := insertPt st.data img ptId (x, y) }
      | _ => addDiag st .badCoordFormat

/-- Process one `MesureAppuiFlottant1Im` element
(`parse_xml_file`, outer loop body). -/
def parseImage (st : RunSt) (ie : ImageElem) : RunSt :=
  if st.crashed then st else
  match ie.nameIm with
  | none => addDiag st .missingNameIm
  | some imgName => ie.mesures.foldl (parseMeasure imgName) st

/-- The function `parse_xml_file`. -/
def parse_xml_file : FileInput → RunSt
  | .missing => ⟨[.fileNotFound], [], false⟩
  | .unparsable => ⟨[.parseFailure], [], false⟩
  | .parsed tag imgs =>
    if tag ≠ rootTag then ⟨[.schemaMismatch], [], false⟩
    else imgs.foldl parseImage ⟨[], [], false⟩

/-! ### Filters and `parse_list` -/

/-- Conversion `set(lst) if lst else None`: an empty (falsy) list yields no filter;
the set is modelled as the list itself, used only through membership. -/
def toFilterSet : Option (List String) → Option (List String)
  | none => none
  | some [] => none
  | some l => some l

/-- Membership `point_id in s` for a set of strings (`None` is in no such set). -/
def optMem (pt : Option String) (s : List String) : Bool :=
  match pt with
  | none => false
  | some x => x ∈ s

/-- The two filter guards of `merge_xml_files`: the record survives iff it is
not skipped by the keep test nor by the exclude test. -/
def passesFilter (keepS exclS : Option (List String)) (pt : Option String) : Bool :=
  (match keepS with | none => true | some s => optMem pt s) &&
  (match exclS with | none => true | some s => !optMem pt s)

/-- Python `str.split(',')`: split on every comma, keeping empty pieces
(first argument: remaining input; second: current piece reversed). -/
def splitCommaAux : List Char → List Char → List String
  | [], cur => [String.mk cur.reverse]
  | c :: r, cur =>
    if c = ',' then String.mk cur.reverse :: splitCommaAux r []
    else splitCommaAux r (c :: cur)

/-- Python `s.split(',')`. -/
def pySplitComma (s : String) : List String := splitCommaAux s.data []

/-- The function `parse_list`: split a comma-separated option on `','`, strip each item,
drop empties; an absent or empty (falsy) string yields `None`. -/
def parse_list : Option String → Option (List String)
  | none => none
  | some s =>
    if s = "" then none
    else some (((pySplitComma s).map pyStrip).filter (fun it => it ≠ ""))

/-! ### `merge_xml_files` -/

/-- One record occurrence: an `(image_name, point_id, coords)` triple. -/
structure SrcRec where
  img : Option String
  pt : Option String
  c : Coords
deriving DecidableEq

/-- Flatten a parsed file's mapping in iteration order
(`for image_name, points in ...items(): for point_id, coords in ...items()`). -/
def flattenAcc : ImgDict → List SrcRec
  | [] => []
  | (img, pts) :: r => pts.map (fun p => SrcRec.mk img p.1 p.2) ++ flattenAcc r

/-- Process one record in `merge_xml_files`' inner loop: filters first, then
the first-wins duplicate check. -/
def mergeRecord (keepS exclS : Option (List String)) (st : RunSt) (r : SrcRec) : RunSt :=
  if passesFilter keepS exclS r.pt then
    if (lookup2 st.data r.img r.pt).isSome then
      addDiag st (.dupAcross r.img r.pt)
    else
      { st with data := insertPt st.data r.img r.pt r.c }
  else st

/-- Process one input file in `merge_xml_files`: the `os.path.isfile` guard,
then `parse_xml_file`, then the record loop.  A crash during parsing
propagates (the record loop is never reached). -/
def mergeStep (keepS exclS : Option (List String)) (st : RunSt) (f : FileInput) : RunSt :=
  if st.crashed then st else
  match f with
  | .missing => addDiag st .missingSource
  | _ =>
    let p := parse_xml_file f
    let st1 : RunSt := { st with diags := st.diags ++ p.diags }
    if p.crashed then { st1 with crashed := true }
    else (flattenAcc p.data).foldl (mergeRecord keepS exclS) st1

/-- Fold of `mergeStep` over the input files from a given state. -/
def mergeFrom (keepS exclS : Option (List String)) (st : RunSt) : List FileInput → RunSt
  | [] => st
  | f :: r => mergeFrom keepS exclS (mergeStep keepS exclS st f) r

/-- The function `merge_xml_files`. -/
def merge_xml_files (files : List FileInput) (keep_list exclude_list : Option (List String)) :
    RunSt :=
  mergeFrom (toFilterSet keep_list) (toFilterSet exclude_list) ⟨[], [], false⟩ files

/-! ### sanity examples -/

example : pyFloat "1.5" = some (.finite false (mkRat 3 2)) := by decide
example : pyFloat "-2.25" = some (.finite true (mkRat 9 4)) := by decide
example : pyFloat "1e3" = some (.finite false (mkRat 1000 1)) := by decide
example : pyFloat "1e400" = some (.inf false) := by decide
example : pyFloat "-1e400" = some (.inf true) := by decide
example : pyFloat "-0.0" = some (.finite true 0) := by decide
example : pyFloat "abc" = none := by decide
example : pyFloat "" = none := by decide
example : pyFloat "." = none := by decide
example : pySplit "  10   20.5 " = ["10", "20.5"] := by decide
example : fmt14 (.finite false (mkRat 3 2)) = "1.50000000000000" := by decide
example : fmt14 (.finite true (mkRat 9 4)) = "-2.25000000000000" := by decide
example : fmt14 (.finite false 0) = "0.00000000000000" := by decide
example : fmt14 (.finite true 0) = "-0.00000000000000" := by decide
example : fmt14 (.inf false) = "inf" := by decide
example : fmt14 (.inf true) = "-inf" := by decide

example :
    parse_xml_file (.parsed rootTag
      [⟨some (some "im1"),
        [⟨some (some "12"), some (some "10 20")⟩,
         ⟨some (some "12"), some (some "99 99")⟩,
         ⟨none, some (some "1 2")⟩]⟩]) =
      ⟨[.dupInSource (some "im1") (some "12"), .missingField],
        [(some "im1", [(some "12", (PyFloat.finite false (mkRat 10 1),
                                    PyFloat.finite false (mkRat 20 1)))])], false⟩ := by decide

example :
    parse_xml_file (.parsed rootTag
      [⟨some (some "im1"), [⟨some (some "12"), some none⟩]⟩]) =
      ⟨[], [], true⟩ := by decide

/-! ### `write_xml_output` -/

/-- The sort key of the writer:
`lambda x: (len(x), x) if x.isdigit() else (999999, x)`. -/
def ptKey (x : String) : Nat × String :=
  if pyIsdigit x then (x.length, x) else (999999, x)

/-- Python `<` on `(int, str)` tuples. -/
def keyLtB (a b : Nat × String) : Bool :=
  decide (a.1 < b.1) || (decide (a.1 = b.1) && pyStrLt a.2 b.2)

/-- Non-strict order on point entries induced by the writer's sort key
(`p ≼ q` iff `q`'s key is not smaller). -/
def ptPairLe (p q : String × Coords) : Prop := keyLtB (ptKey q.1) (ptKey p.1) = false

instance : DecidableRel ptPairLe := fun p q =>
  inferInstanceAs (Decidable (_ = false))

/-- Non-strict string order (`a ≼ b` iff `b < a` fails), for the image sort. -/
def strLe (a b : String) : Prop := pyStrLt b a = false

instance : DecidableRel strLe := fun a b =>
  inferInstanceAs (Decidable (_ = false))

/-- The sort `sorted(points.keys(), key=...)` lifted to the key/value pairs (the dict
the writer receives has distinct keys, so sorting the pairs and looking each
key up are the same). -/
def sortPts (l : List (String × Coords)) : List (String × Coords) :=
  List.insertionSort ptPairLe l

/-- The sort `sorted(images_data.keys())` on string keys. -/
def sortStrs (l : List String) : List String := List.insertionSort strLe l

/-- An uncaught exception of the writer. -/
inductive PyError where
  /-- `None.isdigit()` in the point sort key. -/
  | attributeError : PyError
  /-- Ordering `None` against `str` in `sorted`. -/
  | typeError : PyError
deriving DecidableEq

/-- One serialized `MesureAppuiFlottant1Im` element: the `NameIm` text and
the ordered `OneMesureAF1I` children as (NamePt text, PtIm text). -/
structure WImage where
  name : Option String
  pts : List (String × String)
deriving DecidableEq

/-- The observable result of `write_xml_output`: the serialized tree, the two
counts in the stderr summary line, and the Python return value (the function
has no `return` statement, so it returns `None`). -/
structure WOut where
  images : List WImage
  reportedImages : Nat
  reportedPoints : Nat
  retVal : Option Nat
deriving DecidableEq

/-- Checks that every key is a present string, as the writer's point sort key
function requires (`sorted` applies the key to every element). -/
def allSomeKeys : List (Option String × Coords) → Option (List (String × Coords))
  | [] => some []
  | (some k, v) :: r => (allSomeKeys r).map (fun t => (k, v) :: t)
  | (none, _) :: _ => none

/-- Checks that every image name is a present string. -/
def allSomeStrs : List (Option String) → Option (List String)
  | [] => some []
  | some k :: r => (allSomeStrs r).map (fun t => k :: t)
  | none :: _ => none

/-- Serialize one image: look its points up, sort them by the point key
(crashing like `None.isdigit()` if any point id is `None`), format each
coordinate pair. -/
def buildImage (a : ImgDict) (k : Option String) : Except PyError WImage :=
  let pts := (lookupA a k).getD []
  match allSomeKeys pts with
  | none => .error .attributeError
  | some pts' => .ok ⟨k, (sortPts pts').map (fun p => (p.1, fmtPair p.2))⟩

/-- Serialize the images in the given (sorted) key order. -/
def buildImages (a : ImgDict) : List (Option String) → Except PyError (List WImage)
  | [] => .ok []
  | k :: ks =>
    match buildImage a k with
    | .error e => .error e
    | .ok wi =>
      match buildImages a ks with
      | .error e => .error e
      | .ok ws => .ok (wi :: ws)

/-- Assemble the writer result: serialized images plus the stderr summary
counts `len(images_data)` / `sum(len(points) for points in ...)`; the Python
function itself returns `None`. -/
def finishWrite (a : ImgDict) (keysSorted : List (Option String)) : Except PyError WOut :=
  match buildImages a keysSorted with
  | .error e => .error e
  | .ok ws => .ok ⟨ws, a.length, (a.map (fun p => p.2.length)).sum, none⟩

/-- The function `write_xml_output`.  `sorted(images_data.keys())` raises `TypeError` when
it compares `None` with a string, which happens exactly when some key is
`None` and there are at least two keys (a singleton list needs no
comparison). -/
def write_xml_output (a : ImgDict) : Except PyError WOut :=
  let keys := a.map Prod.fst
  match allSomeStrs keys with
  | none => if 2 ≤ keys.length then .error .typeError else finishWrite a keys
  | some skeys => finishWrite a ((sortStrs skeys).map (fun k => some k))

/-! ### Record streams (for stating first-wins) -/

/-- The records of one image element that parse successfully, in document
order (skipped records yield nothing). -/
def mesStream (img : Option String) : List OneMesure → List SrcRec
  | [] => []
  | m :: r =>
    (match m.namePt, m.ptIm with
     | some ptId, some (some t) =>
       (match pySplit (pyStrip t) with
        | c0 :: c1 :: _ =>
          (match pyFloat c0, pyFloat c1 with
           | some x, some y => [⟨img, ptId, (x, y)⟩]
           | _, _ => [])
        | _ => [])
     | _, _ => []) ++ mesStream img r

/-- The records of a list of image elements, in document order. -/
def imgStream : List ImageElem → List SrcRec
  | [] => []
  | ie :: r =>
    (match ie.nameIm with
     | none => []
     | some imgName => mesStream imgName ie.mesures) ++ imgStream r

/-- The records one file contributes. -/
def fileStream : FileInput → List SrcRec
  | .parsed tag imgs => if tag = rootTag then imgStream imgs else []
  | _ => []

/-- The record stream of an ordered list of input files. -/
def recStream : List FileInput → List SrcRec
  | [] => []
  | f :: r => fileStream f ++ recStream r

/-- Value of the first occurrence of key `(img, pt)` in a stream. -/
def firstVal : List SrcRec → Option String → Option String → Option Coords
  | [], _, _ => none
  | r :: t, img, pt => if r.img = img ∧ r.pt = pt then some r.c else firstVal t img pt

/-- Number of occurrences of key `(img, pt)` in a stream. -/
def occCount : List SrcRec → Option String → Option String → Nat
  | [], _, _ => 0
  | r :: t, img, pt => (if r.img = img ∧ r.pt = pt then 1 else 0) + occCount t img pt

/-- All values yielded for key `(img, pt)`, in stream order. -/
def valuesAt : List SrcRec → Option String → Option String → List Coords
  | [], _, _ => []
  | r :: t, img, pt => (if r.img = img ∧ r.pt = pt then [r.c] else []) ++ valuesAt t img pt

/-- Number of duplicate diagnostics (either kind) for key `(img, pt)`. -/
def dupDiagCount (ds : List Diag) (img pt : Option String) : Nat :=
  ds.countP (fun d => d == .dupInSource img pt || d == .dupAcross img pt)

/-- Left-biased choice on `Option`. -/
def oor {α : Type} : Option α → Option α → Option α
  | some x, _ => some x
  | none, b => b

/-! ### Further definitions used by the claims -/

deriving instance DecidableEq for Except

/-- The non-fatal diagnostic a bad input file produces in `merge_xml_files`:
`missingSource` for a nonexistent file, `parseFailure` for malformed XML,
`schemaMismatch` for a wrong root tag; `none` for a file the engine
actually parses. -/
def diagForBad : FileInput → Option Diag
  | .missing => some .missingSource
  | .unparsable => some .parseFailure
  | .parsed tag _ => if tag ≠ rootTag then some .schemaMismatch else none

/-- The composite ordering of point ids as claim C3 describes it, with the
`999999` sentinel of the code made explicit: digit ids mutually by
(length, lexicographic); non-digit ids mutually lexicographic; a non-digit
id precedes a digit id only when that digit id has length at least 999999;
a digit id precedes a non-digit id when its length is below 999999, or
equals 999999 with the lexicographic tie-break. -/
def specOrdered (a b : String) : Prop :=
  (pyIsdigit a = true → pyIsdigit b = true →
      (a.length < b.length ∨ (a.length = b.length ∧ pyStrLt a b = true))) ∧
  (pyIsdigit a = false → pyIsdigit b = false → pyStrLt a b = true) ∧
  (pyIsdigit a = false → pyIsdigit b = true → 999999 ≤ b.length) ∧
  (pyIsdigit a = true → pyIsdigit b = false →
      (a.length < 999999 ∨ (a.length = 999999 ∧ pyStrLt a b = true)))

/-- A decimal number with exactly 14 fractional digits: optional minus sign,
nonempty integer digits, a point, exactly 14 fractional digits. -/
def decimal14 (s : String) : Prop :=
  ∃ sgn ip f, s = sgn ++ String.mk ip ++ "." ++ String.mk f ∧
    (sgn = "" ∨ sgn = "-") ∧ ip ≠ [] ∧ (∀ c ∈ ip, c.isDigit) ∧
    f.length = 14 ∧ (∀ c ∈ f, c.isDigit)

/-- An all-digit point id of length 999999, the sentinel value of the
writer's sort key. -/
def bigId : String := String.mk (List.replicate 999999 '1')

/-- Coordinate pair (0.0, 0.0), used by fixture dictionaries. -/
def zeroC : Coords := (.finite false 0, .finite false 0)

/-- Accumulator with one image holding a non-digit id and `bigId`. -/
def c3CexDict : ImgDict :=
  [(some "im", [(some "!", zeroC), (some bigId, zeroC)])]

/-- Test file: one image, point "1" measured twice (in-file duplicate). -/
def wFileDup : FileInput :=
  .parsed rootTag
    [⟨some (some "imA"),
      [⟨some (some "1"), some (some "1 2")⟩,
       ⟨some (some "1"), some (some "3 4")⟩]⟩]

/-- Test file: one image, point "1" measured once more (cross-file duplicate). -/
def wFileDup2 : FileInput :=
  .parsed rootTag
    [⟨some (some "imA"), [⟨some (some "1"), some (some "5 6")⟩]⟩]

/-- Test file: one image with points "1" and "9". -/
def wFileTwoPts : FileInput :=
  .parsed rootTag
    [⟨some (some "imA"),
      [⟨some (some "1"), some (some "1 2")⟩,
       ⟨some (some "9"), some (some "3 4")⟩]⟩]

/-- Test file: one image with point "2". -/
def wFilePt2 : FileInput :=
  .parsed rootTag
    [⟨some (some "imA"), [⟨some (some "2"), some (some "7 8")⟩]⟩]

/-- Test file: one image with ids "10", "2", "abc", "1" (claim C3's example). -/
def wFileSortEx : FileInput :=
  .parsed rootTag
    [⟨some (some "imA"),
      [⟨some (some "10"), some (some "0 0")⟩,
       ⟨some (some "2"), some (some "0 0")⟩,
       ⟨some (some "abc"), some (some "0 0")⟩,
       ⟨some (some "1"), some (some "0 0")⟩]⟩]

/-- Test file: one record whose x token `1e400` overflows `float` conversion
to infinity (CPython accepts it without an error). -/
def wFileOverflow : FileInput :=
  .parsed rootTag
    [⟨some (some "im"), [⟨some (some "7"), some (some "1e400 2")⟩]⟩]

/-- Test file: a record whose `PtIm` element is present but empty, followed
by a good record. -/
def wFileEmptyPtIm : FileInput :=
  .parsed rootTag
    [⟨some (some "im"),
      [⟨some (some "1"), some none⟩,
       ⟨some (some "2"), some (some "3 4")⟩]⟩]

/-! ### Basic lemmas: `oor`, lookups, streams -/

theorem oor_some {α : Type} (x : α) (b : Option α) : oor (some x) b = some x := rfl

theorem oor_none {α : Type} (b : Option α) : oor none b = b := rfl

theorem oor_none_right {α : Type} (a : Option α) : oor a none = a := by
  cases a <;> rfl

theorem oor_assoc {α : Type} (a b c : Option α) : oor (oor a b) c = oor a (oor b c) := by
  cases a <;> rfl

theorem oor_isSome_left {α : Type} {a : Option α} (b : Option α) (h : a.isSome) :
    oor a b = a := by
  cases a <;> simp_all [oor]

theorem lookupA_append {β : Type} (m n : List (Option String × β)) (k : Option String) :
    lookupA (m ++ n) k = oor (lookupA m k) (lookupA n k) := by
  induction m with
  | nil => simp [lookupA, oor]
  | cons hd t ih =>
    obtain ⟨k', v⟩ := hd
    by_cases hk : k' = k <;> simp [lookupA, hk, ih, oor]

theorem lookupA_eq_none_iff {β : Type} (m : List (Option String × β)) (k : Option String) :
    lookupA m k = none ↔ k ∉ m.map Prod.fst := by
  induction m with
  | nil => simp [lookupA]
  | cons hd t ih =>
    obtain ⟨k', v⟩ := hd
    by_cases hk : k' = k
    · subst hk; simp [lookupA]
    · have hk' : ¬k = k' := fun hh => hk hh.symm
      simp [lookupA, hk, hk', ih]

theorem lookupA_isSome_iff {β : Type} (m : List (Option String × β)) (k : Option String) :
    (lookupA m k).isSome ↔ k ∈ m.map Prod.fst := by
  rcases hl : lookupA m k with _ | v
  · simp [(lookupA_eq_none_iff m k).mp hl]
  · have : ¬lookupA m k = none := by simp [hl]
    simpa using (lookupA_eq_none_iff m k).not.mp this

theorem lookupA_mem {β : Type} {m : List (Option String × β)} {k : Option String} {v : β}
    (h : lookupA m k = some v) : (k, v) ∈ m := by
  induction m with
  | nil => simp [lookupA] at h
  | cons hd t ih =>
    obtain ⟨k', v'⟩ := hd
    by_cases hk : k' = k
    · simp only [lookupA, if_pos hk] at h
      subst hk
      simp [← Option.some_inj.mp h]
    · simp only [lookupA, if_neg hk] at h
      exact List.mem_cons_of_mem _ (ih h)

theorem firstVal_append (s t : List SrcRec) (img pt : Option String) :
    firstVal (s ++ t) img pt = oor (firstVal s img pt) (firstVal t img pt) := by
  induction s with
  | nil => simp [firstVal, oor]
  | cons r s ih =>
    by_cases h : r.img = img ∧ r.pt = pt <;> simp [firstVal, h, ih, oor]

theorem occCount_append (s t : List SrcRec) (img pt : Option String) :
    occCount (s ++ t) img pt = occCount s img pt + occCount t img pt := by
  induction s with
  | nil => simp [occCount]
  | cons r s ih =>
    by_cases h : r.img = img ∧ r.pt = pt <;> simp [occCount, h, ih] <;> omega

theorem valuesAt_append (s t : List SrcRec) (img pt : Option String) :
    valuesAt (s ++ t) img pt = valuesAt s img pt ++ valuesAt t img pt := by
  induction s with
  | nil => simp [valuesAt]
  | cons r s ih =>
    by_cases h : r.img = img ∧ r.pt = pt <;> simp [valuesAt, h, ih]

theorem firstVal_mem_valuesAt {s : List SrcRec} {img pt : Option String} {c : Coords}
    (h : firstVal s img pt = some c) : c ∈ valuesAt s img pt := by
  induction s with
  | nil => simp [firstVal] at h
  | cons r s ih =>
    by_cases hr : r.img = img ∧ r.pt = pt
    · simp only [firstVal, if_pos hr] at h
      simp [valuesAt, hr, ← Option.some_inj.mp h]
    · simp only [firstVal, if_neg hr] at h
      simp [valuesAt, hr, ih h]

theorem occCount_pos_iff_firstVal (s : List SrcRec) (img pt : Option String) :
    0 < occCount s img pt ↔ (firstVal s img pt).isSome := by
  induction s with
  | nil => simp [occCount, firstVal]
  | cons r s ih =>
    by_cases h : r.img = img ∧ r.pt = pt <;> simp [occCount, firstVal, h, ih]

theorem dupDiagCount_append (ds es : List Diag) (img pt : Option String) :
    dupDiagCount (ds ++ es) img pt = dupDiagCount ds img pt + dupDiagCount es img pt := by
  simp [dupDiagCount, List.countP_append]

theorem dupDiagCount_single_other {d : Diag} (img pt : Option String)
    (h1 : d ≠ .dupInSource img pt) (h2 : d ≠ .dupAcross img pt) :
    dupDiagCount [d] img pt = 0 := by
  simp [dupDiagCount, List.countP_cons, h1, h2]

theorem dupDiagCount_single_inSource (img pt : Option String) :
    dupDiagCount [Diag.dupInSource img pt] img pt = 1 := by
  simp [dupDiagCount, List.countP_cons]

theorem dupDiagCount_single_across (img pt : Option String) :
    dupDiagCount [Diag.dupAcross img pt] img pt = 1 := by
  simp [dupDiagCount, List.countP_cons]

theorem lookup2_nil (i p : Option String) : lookup2 [] i p = none := rfl

theorem lookup2_cons (k : Option String) (m : PtMap) (r : ImgDict) (i p : Option String) :
    lookup2 ((k, m) :: r) i p = if k = i then lookupA m p else lookup2 r i p := by
  by_cases h : k = i <;> simp [lookup2, lookupA, h]

theorem lookup2_insertPt (a : ImgDict) (img pt : Option String) (c : Coords)
    (h : lookup2 a img pt = none) (i p : Option String) :
    lookup2 (insertPt a img pt c) i p =
      if i = img ∧ p = pt then some c else lookup2 a i p := by
  induction a with
  | nil =>
    show lookup2 [(img, [(pt, c)])] i p = _
    rw [lookup2_cons]
    by_cases h1 : img = i
    · subst h1
      by_cases h2 : p = pt
      · subst h2; simp [lookupA]
      · have h2' : ¬pt = p := fun hh => h2 hh.symm
        simp [lookupA, h2, h2', lookup2_nil]
    · have h1' : ¬i = img := fun hh => h1 hh.symm
      simp [h1, h1', lookup2_nil]
  | cons hd r ih =>
    obtain ⟨k, m⟩ := hd
    rw [lookup2_cons] at h
    by_cases hk : k = img
    · rw [if_pos hk] at h
      simp only [insertPt, if_pos hk]
      rw [lookup2_cons, lookup2_cons]
      by_cases hi : k = i
      · rw [if_pos hi, if_pos hi, lookupA_append]
        by_cases hp : p = pt
        · subst hp
          have him : i = img := hi.symm.trans hk
          simp [h, lookupA, oor, him]
        · have hp' : ¬pt = p := fun hh => hp hh.symm
          simp [lookupA, hp, hp', oor_none_right]
      · rw [if_neg hi, if_neg hi]
        have : ¬(i = img ∧ p = pt) := fun hh => hi (hk.trans hh.1.symm)
        simp [this]
    · rw [if_neg hk] at h
      simp only [insertPt, if_neg hk]
      rw [lookup2_cons, lookup2_cons]
      by_cases hi : k = i
      · have : ¬(i = img ∧ p = pt) := fun hh => hk (hi.trans hh.1)
        simp [hi, this]
      · simp [hi, ih h]

/-! ### Dictionary invariants: nonempty images, distinct keys -/

/-- Every image entry holds at least one point. -/
def dictNE (a : ImgDict) : Prop := ∀ pr ∈ a, pr.2 ≠ []

/-- Image keys are distinct and each image's point keys are distinct
(as in any Python `dict`). -/
def dictNodup (a : ImgDict) : Prop :=
  (a.map Prod.fst).Nodup ∧ ∀ pr ∈ a, (pr.2.map Prod.fst).Nodup

theorem dictNE_nil : dictNE [] := by simp [dictNE]

theorem dictNodup_nil : dictNodup [] := by simp [dictNodup]

theorem dictNE_insertPt {a : ImgDict} (h : dictNE a) (img pt : Option String) (c : Coords) :
    dictNE (insertPt a img pt c) := by
  induction a with
  | nil => simp [insertPt, dictNE]
  | cons hd r ih =>
    obtain ⟨k, m⟩ := hd
    by_cases hk : k = img
    · simp only [insertPt, if_pos hk]
      intro pr hpr
      rcases List.mem_cons.mp hpr with h1 | h1
      · subst h1; simp
      · exact h pr (List.mem_cons_of_mem _ h1)
    · simp only [insertPt, if_neg hk]
      intro pr hpr
      rcases List.mem_cons.mp hpr with h1 | h1
      · subst h1; exact h (k, m) (List.mem_cons_self _ _)
      · exact ih (fun q hq => h q (List.mem_cons_of_mem _ hq)) pr h1

theorem insertPt_map_fst (a : ImgDict) (img pt : Option String) (c : Coords) :
    (insertPt a img pt c).map Prod.fst =
      if img ∈ a.map Prod.fst then a.map Prod.fst else a.map Prod.fst ++ [img] := by
  induction a with
  | nil => simp [insertPt]
  | cons hd r ih =>
    obtain ⟨k, m⟩ := hd
    by_cases hk : k = img
    · subst hk; simp [insertPt]
    · have hk' : ¬img = k := fun hh => hk hh.symm
      simp only [insertPt, if_neg hk, List.map_cons, List.mem_cons, hk', false_or, ih]
      split_ifs <;> simp

theorem dictNodup_insertPt {a : ImgDict} (hn : dictNodup a) {img pt : Option String}
    (h : lookup2 a img pt = none) (c : Coords) :
    dictNodup (insertPt a img pt c) := by
  induction a with
  | nil => simp [insertPt, dictNodup]
  | cons hd r ih =>
    obtain ⟨k, m⟩ := hd
    obtain ⟨hkeys, hpts⟩ := hn
    have hknot : k ∉ r.map Prod.fst := (List.nodup_cons.mp (by simpa using hkeys)).1
    have hrkeys : (r.map Prod.fst).Nodup := (List.nodup_cons.mp (by simpa using hkeys)).2
    rw [lookup2_cons] at h
    by_cases hk : k = img
    · rw [if_pos hk] at h
      simp only [insertPt, if_pos hk]
      refine ⟨by simpa using hkeys, ?_⟩
      intro pr hpr
      rcases List.mem_cons.mp hpr with h1 | h1
      · subst h1
        have hm := hpts (k, m) (List.mem_cons_self _ _)
        have hpt : pt ∉ m.map Prod.fst := (lookupA_eq_none_iff m pt).mp h
        simp only [List.map_append, List.map_cons, List.map_nil]
        simp [List.nodup_append, hm, hpt]
      · exact hpts pr (List.mem_cons_of_mem _ h1)
    · rw [if_neg hk] at h
      simp only [insertPt, if_neg hk]
      have ihr := ih ⟨hrkeys, fun q hq => hpts q (List.mem_cons_of_mem _ hq)⟩ h
      refine ⟨?_, ?_⟩
      · simp only [List.map_cons, List.nodup_cons]
        refine ⟨?_, ihr.1⟩
        rw [insertPt_map_fst]
        split_ifs with hmem
        · exact hknot
        · simp only [List.mem_append, List.mem_singleton]
          rintro (h1 | h1)
          · exact hknot h1
          · exact hk h1
      · intro pr hpr
        rcases List.mem_cons.mp hpr with h1 | h1
        · subst h1; exact hpts (k, m) (List.mem_cons_self _ _)
        · exact ihr.2 pr h1

/-! ### Crash propagation -/

theorem parseMeasure_crashed (img : Option String) (st : RunSt) (m : OneMesure)
    (h : st.crashed = true) : parseMeasure img st m = st := by
  simp [parseMeasure, h]

theorem foldMeas_crashed (img : Option String) (ms : List OneMesure) (st : RunSt)
    (h : st.crashed = true) : ms.foldl (parseMeasure img) st = st := by
  induction ms with
  | nil => rfl
  | cons m r ih => rw [List.foldl_cons, parseMeasure_crashed img st m h, ih]

theorem parseImage_crashed (st : RunSt) (ie : ImageElem) (h : st.crashed = true) :
    parseImage st ie = st := by
  simp [parseImage, h]

theorem foldImg_crashed (ies : List ImageElem) (st : RunSt) (h : st.crashed = true) :
    ies.foldl parseImage st = st := by
  induction ies with
  | nil => rfl
  | cons ie r ih => rw [List.foldl_cons, parseImage_crashed st ie h, ih]

theorem mergeStep_crashed (keepS exclS : Option (List String)) (st : RunSt) (f : FileInput)
    (h : st.crashed = true) : mergeStep keepS exclS st f = st := by
  simp [mergeStep, h]

theorem mergeFrom_crashed (keepS exclS : Option (List String)) (files : List FileInput)
    (st : RunSt) (h : st.crashed = true) : mergeFrom keepS exclS st files = st := by
  induction files with
  | nil => rfl
  | cons f r ih => rw [mergeFrom, mergeStep_crashed keepS exclS st f h, ih]

/-! ### Parse characterization: measures -/

theorem foldMeas_spec (img : Option String) (ms : List OneMesure) :
    ∀ st : RunSt, (ms.foldl (parseMeasure img) st).crashed = false →
      ∀ i p : Option String,
        lookup2 (ms.foldl (parseMeasure img) st).data i p
          = oor (lookup2 st.data i p) (firstVal (mesStream img ms) i p) ∧
        dupDiagCount (ms.foldl (parseMeasure img) st).diags i p
          = dupDiagCount st.diags i p +
            (if (lookup2 st.data i p).isSome then occCount (mesStream img ms) i p
             else occCount (mesStream img ms) i p - 1) := by
  induction ms with
  | nil =>
    intro st h i p
    constructor
    · simp [mesStream, firstVal, oor_none_right]
    · simp only [List.foldl_nil, mesStream, occCount]
      split_ifs <;> simp
  | cons m r ih =>
    intro st h i p
    have hst : st.crashed = false := by
      by_contra hc
      rw [Bool.not_eq_false] at hc
      rw [List.foldl_cons, parseMeasure_crashed img st m hc, foldMeas_crashed img r st hc] at h
      rw [h] at hc
      exact Bool.false_ne_true hc
    rcases m with ⟨npt, pim⟩
    rcases npt with _ | ptId
    · -- NamePt element missing: MalformedRecord diagnostic, record skipped
      have hstep : parseMeasure img st ⟨none, pim⟩ = addDiag st .missingField := by
        simp [parseMeasure, hst]
      have hstream : mesStream img (⟨none, pim⟩ :: r) = mesStream img r := by
        simp [mesStream]
      rw [List.foldl_cons, hstep] at h ⊢
      rw [hstream]
      obtain ⟨hl, hd⟩ := ih (addDiag st .missingField) h i p
      refine ⟨by simpa [addDiag] using hl, ?_⟩
      rw [hd]
      have h0 : dupDiagCount [Diag.missingField] i p = 0 :=
        dupDiagCount_single_other i p (by simp) (by simp)
      simp [addDiag, dupDiagCount_append, h0]
    rcases pim with _ | ptImText
    · -- PtIm element missing
      have hstep : parseMeasure img st ⟨some ptId, none⟩ = addDiag st .missingField := by
        simp [parseMeasure, hst]
      have hstream : mesStream img (⟨some ptId, none⟩ :: r) = mesStream img r := by
        simp [mesStream]
      rw [List.foldl_cons, hstep] at h ⊢
      rw [hstream]
      obtain ⟨hl, hd⟩ := ih (addDiag st .missingField) h i p
      refine ⟨by simpa [addDiag] using hl, ?_⟩
      rw [hd]
      have h0 : dupDiagCount [Diag.missingField] i p = 0 :=
        dupDiagCount_single_other i p (by simp) (by simp)
      simp [addDiag, dupDiagCount_append, h0]
    rcases ptImText with _ | t
    · -- PtIm present but empty: AttributeError, contradiction with no-crash
      have hstep : parseMeasure img st ⟨some ptId, some none⟩ = { st with crashed := true } := by
        simp [parseMeasure, hst]
      rw [List.foldl_cons, hstep, foldMeas_crashed img r _ rfl] at h
      exact absurd h (by simp)
    -- PtIm has text t
    rcases hsplit : pySplit (pyStrip t) with _ | ⟨c0, tok1⟩
    · -- zero tokens
      have hstep : parseMeasure img st ⟨some ptId, some (some t)⟩ = addDiag st .badCoordFormat := by
        simp [parseMeasure, hst, hsplit]
      have hstream : mesStream img (⟨some ptId, some (some t)⟩ :: r) = mesStream img r := by
        simp [mesStream, hsplit]
      rw [List.foldl_cons, hstep] at h ⊢
      rw [hstream]
      obtain ⟨hl, hd⟩ := ih (addDiag st .badCoordFormat) h i p
      refine ⟨by simpa [addDiag] using hl, ?_⟩
      rw [hd]
      have h0 : dupDiagCount [Diag.badCoordFormat] i p = 0 :=
        dupDiagCount_single_other i p (by simp) (by simp)
      simp [addDiag, dupDiagCount_append, h0]
    rcases tok1 with _ | ⟨c1, tokRest⟩
    · -- one token
      have hstep : parseMeasure img st ⟨some ptId, some (some t)⟩ = addDiag st .badCoordFormat := by
        simp [parseMeasure, hst, hsplit]
      have hstream : mesStream img (⟨some ptId, some (some t)⟩ :: r) = mesStream img r := by
        simp [mesStream, hsplit]
      rw [List.foldl_cons, hstep] at h ⊢
      rw [hstream]
      obtain ⟨hl, hd⟩ := ih (addDiag st .badCoordFormat) h i p
      refine ⟨by simpa [addDiag] using hl, ?_⟩
      rw [hd]
      have h0 : dupDiagCount [Diag.badCoordFormat] i p = 0 :=
        dupDiagCount_single_other i p (by simp) (by simp)
      simp [addDiag, dupDiagCount_append, h0]
    rcases hx : pyFloat c0 with _ | x
    · -- first token non-numeric
      have hstep : parseMeasure img st ⟨some ptId, some (some t)⟩ = addDiag st .nonNumeric := by
        simp [parseMeasure, hst, hsplit, hx]
      have hstream : mesStream img (⟨some ptId, some (some t)⟩ :: r) = mesStream img r := by
        simp [mesStream, hsplit, hx]
      rw [List.foldl_cons, hstep] at h ⊢
      rw [hstream]
      obtain ⟨hl, hd⟩ := ih (addDiag st .nonNumeric) h i p
      refine ⟨by simpa [addDiag] using hl, ?_⟩
      rw [hd]
      have h0 : dupDiagCount [Diag.nonNumeric] i p = 0 :=
        dupDiagCount_single_other i p (by simp) (by simp)
      simp [addDiag, dupDiagCount_append, h0]
    rcases hy : pyFloat c1 with _ | y
    · -- second token non-numeric
      have hstep : parseMeasure img st ⟨some ptId, some (some t)⟩ = addDiag st .nonNumeric := by
        simp [parseMeasure, hst, hsplit, hx, hy]
      have hstream : mesStream img (⟨some ptId, some (some t)⟩ :: r) = mesStream img r := by
        simp [mesStream, hsplit, hx, hy]
      rw [List.foldl_cons, hstep] at h ⊢
      rw [hstream]
      obtain ⟨hl, hd⟩ := ih (addDiag st .nonNumeric) h i p
      refine ⟨by simpa [addDiag] using hl, ?_⟩
      rw [hd]
      have h0 : dupDiagCount [Diag.nonNumeric] i p = 0 :=
        dupDiagCount_single_other i p (by simp) (by simp)
      simp [addDiag, dupDiagCount_append, h0]
    -- a fully parsed record
    have hstream : mesStream img (⟨some ptId, some (some t)⟩ :: r)
        = ⟨img, ptId, (x, y)⟩ :: mesStream img r := by
      simp [mesStream, hsplit, hx, hy]
    rw [hstream]
    rcases hlook : lookup2 st.data img ptId with _ | cdup
    · -- key not yet present: insert
      have hstep : parseMeasure img st ⟨some ptId, some (some t)⟩
          = { st with data := insertPt st.data img ptId (x, y) } := by
        simp [parseMeasure, hst, hsplit, hx, hy, hlook]
      rw [List.foldl_cons, hstep] at h ⊢
      obtain ⟨hl, hd⟩ := ih _ h i p
      dsimp only at hl hd
      rw [lookup2_insertPt st.data img ptId (x, y) hlook i p] at hl hd
      by_cases hkey : i = img ∧ p = ptId
      · obtain ⟨hi, hp⟩ := hkey
        subst hi; subst hp
        have hfv : firstVal (⟨i, p, (x, y)⟩ :: mesStream i r) i p = some (x, y) := by
          simp [firstVal]
        have hoc : occCount (⟨i, p, (x, y)⟩ :: mesStream i r) i p
            = 1 + occCount (mesStream i r) i p := by
          simp [occCount]
        constructor
        · rw [hl, hlook, hfv]
          simp [oor]
        · rw [hd, hlook, hoc]
          simp
      · have hnotkey : ¬(img = i ∧ ptId = p) := fun hc => hkey ⟨hc.1.symm, hc.2.symm⟩
        have hfv : firstVal (⟨img, ptId, (x, y)⟩ :: mesStream img r) i p
            = firstVal (mesStream img r) i p := by
          simp [firstVal, hnotkey]
        have hoc : occCount (⟨img, ptId, (x, y)⟩ :: mesStream img r) i p
            = occCount (mesStream img r) i p := by
          simp [occCount, hnotkey]
        rw [if_neg hkey] at hl hd
        constructor
        · rw [hl, hfv]
        · rw [hd, hoc]
    · -- duplicate within the file
      have hsome : (lookup2 st.data img ptId).isSome := by simp [hlook]
      have hstep : parseMeasure img st ⟨some ptId, some (some t)⟩
          = addDiag st (.dupInSource img ptId) := by
        simp [parseMeasure, hst, hsplit, hx, hy, hsome]
      rw [List.foldl_cons, hstep] at h ⊢
      obtain ⟨hl, hd⟩ := ih (addDiag st (.dupInSource img ptId)) h i p
      simp only [addDiag] at hl hd ⊢
      by_cases hkey : i = img ∧ p = ptId
      · obtain ⟨hi, hp⟩ := hkey
        subst hi; subst hp
        have hfv : firstVal (⟨i, p, (x, y)⟩ :: mesStream i r) i p = some (x, y) := by
          simp [firstVal]
        have hoc : occCount (⟨i, p, (x, y)⟩ :: mesStream i r) i p
            = 1 + occCount (mesStream i r) i p := by
          simp [occCount]
        constructor
        · rw [hl, hlook, hfv]
          simp [oor]
        · rw [hd, dupDiagCount_append, dupDiagCount_single_inSource]
          simp [hlook, hoc]
          omega
      · have hnotkey : ¬(img = i ∧ ptId = p) := fun hc => hkey ⟨hc.1.symm, hc.2.symm⟩
        have hfv : firstVal (⟨img, ptId, (x, y)⟩ :: mesStream img r) i p
            = firstVal (mesStream img r) i p := by
          simp [firstVal, hnotkey]
        have hoc : occCount (⟨img, ptId, (x, y)⟩ :: mesStream img r) i p
            = occCount (mesStream img r) i p := by
          simp [occCount, hnotkey]
        have h0 : dupDiagCount [Diag.dupInSource img ptId] i p = 0 := by
          apply dupDiagCount_single_other
          · simp only [ne_eq, Diag.dupInSource.injEq, not_and]
            intro hc
            exact fun hp => hkey ⟨hc.symm, hp.symm⟩
          · simp
        rw [dupDiagCount_append, h0] at hd
        constructor
        · rw [hl, hfv]
        · rw [hd, hoc]
          omega

/-! ### Parse characterization: images and files -/

theorem dup_count_compose (A F : Option Coords) (n1 n2 D : Nat)
    (hF : F.isSome ↔ 0 < n1) :
    (D + (if A.isSome then n1 else n1 - 1)) +
      (if (oor A F).isSome then n2 else n2 - 1)
      = D + (if A.isSome then n1 + n2 else n1 + n2 - 1) := by
  rcases A with _ | a
  · rcases F with _ | f
    · simp only [oor] at hF ⊢
      simp at hF ⊢
      omega
    · simp only [oor] at hF ⊢
      simp at hF ⊢
      omega
  · simp [oor]
    omega

theorem foldImg_spec (ies : List ImageElem) :
    ∀ st : RunSt, (ies.foldl parseImage st).crashed = false →
      ∀ i p : Option String,
        lookup2 (ies.foldl parseImage st).data i p
          = oor (lookup2 st.data i p) (firstVal (imgStream ies) i p) ∧
        dupDiagCount (ies.foldl parseImage st).diags i p
          = dupDiagCount st.diags i p +
            (if (lookup2 st.data i p).isSome then occCount (imgStream ies) i p
             else occCount (imgStream ies) i p - 1) := by
  induction ies with
  | nil =>
    intro st h i p
    constructor
    · simp [imgStream, firstVal, oor_none_right]
    · simp only [List.foldl_nil, imgStream, occCount]
      split_ifs <;> simp
  | cons ie r ih =>
    intro st h i p
    have hst : st.crashed = false := by
      by_contra hc
      rw [Bool.not_eq_false] at hc
      rw [List.foldl_cons, parseImage_crashed st ie hc, foldImg_crashed r st hc] at h
      rw [h] at hc
      exact Bool.false_ne_true hc
    rcases ie with ⟨nim, ms⟩
    rcases nim with _ | imgName
    · -- NameIm missing: image skipped
      have hstep : parseImage st ⟨none, ms⟩ = addDiag st .missingNameIm := by
        simp [parseImage, hst]
      have hstream : imgStream (⟨none, ms⟩ :: r) = imgStream r := by
        simp [imgStream]
      rw [List.foldl_cons, hstep] at h ⊢
      rw [hstream]
      obtain ⟨hl, hd⟩ := ih (addDiag st .missingNameIm) h i p
      refine ⟨by simpa [addDiag] using hl, ?_⟩
      rw [hd]
      have h0 : dupDiagCount [Diag.missingNameIm] i p = 0 :=
        dupDiagCount_single_other i p (by simp) (by simp)
      simp [addDiag, dupDiagCount_append, h0]
    · -- named image: fold its measures, then the remaining images
      have hstep : parseImage st ⟨some imgName, ms⟩ = ms.foldl (parseMeasure imgName) st := by
        simp [parseImage, hst]
      have hstream : imgStream (⟨some imgName, ms⟩ :: r)
          = mesStream imgName ms ++ imgStream r := by
        simp [imgStream]
      rw [List.foldl_cons, hstep] at h ⊢
      rw [hstream]
      have hc1 : (ms.foldl (parseMeasure imgName) st).crashed = false := by
        by_contra hc
        rw [Bool.not_eq_false] at hc
        rw [foldImg_crashed r _ hc] at h
        rw [h] at hc
        exact Bool.false_ne_true hc
      obtain ⟨hl1, hd1⟩ := foldMeas_spec imgName ms st hc1 i p
      obtain ⟨hl2, hd2⟩ := ih (ms.foldl (parseMeasure imgName) st) h i p
      constructor
      · rw [hl2, hl1, oor_assoc, ← firstVal_append]
      · rw [hd2, hd1]
        simp only [hl1]
        rw [occCount_append]
        exact dup_count_compose _ _ _ _ _
          ((occCount_pos_iff_firstVal (mesStream imgName ms) i p).symm)

theorem parse_spec (f : FileInput) (h : (parse_xml_file f).crashed = false)
    (i p : Option String) :
    lookup2 (parse_xml_file f).data i p = firstVal (fileStream f) i p ∧
    dupDiagCount (parse_xml_file f).diags i p = occCount (fileStream f) i p - 1 := by
  rcases f with _ | _ | ⟨tag, imgs⟩
  · simp [parse_xml_file, fileStream, firstVal, occCount, dupDiagCount, lookup2, lookupA,
      List.countP_cons]
  · simp [parse_xml_file, fileStream, firstVal, occCount, dupDiagCount, lookup2, lookupA,
      List.countP_cons]
  · by_cases htag : tag = rootTag
    · have hparse : parse_xml_file (.parsed tag imgs)
          = imgs.foldl parseImage ⟨[], [], false⟩ := by
        simp [parse_xml_file, htag]
      have hstream : fileStream (.parsed tag imgs) = imgStream imgs := by
        simp [fileStream, htag]
      rw [hparse] at h ⊢
      rw [hstream]
      obtain ⟨hl, hd⟩ := foldImg_spec imgs ⟨[], [], false⟩ h i p
      constructor
      · rw [hl]
        simp [lookup2_nil, oor]
      · rw [hd]
        simp [lookup2_nil, dupDiagCount]
    · simp [parse_xml_file, fileStream, htag, firstVal, occCount, dupDiagCount, lookup2, lookupA,
        List.countP_cons]

/-! ### Invariant preservation through parse and merge -/

theorem parseMeasure_inv (img : Option String) (st : RunSt) (m : OneMesure)
    (hne : dictNE st.data) (hnd : dictNodup st.data) :
    dictNE (parseMeasure img st m).data ∧ dictNodup (parseMeasure img st m).data := by
  by_cases hc : st.crashed
  · rw [parseMeasure_crashed img st m hc]; exact ⟨hne, hnd⟩
  rcases m with ⟨npt, pim⟩
  rcases npt with _ | ptId
  · simp [parseMeasure, hc, addDiag]; exact ⟨hne, hnd⟩
  rcases pim with _ | ptImText
  · simp [parseMeasure, hc, addDiag]; exact ⟨hne, hnd⟩
  rcases ptImText with _ | t
  · simp [parseMeasure, hc]; exact ⟨hne, hnd⟩
  rcases hsplit : pySplit (pyStrip t) with _ | ⟨c0, _ | ⟨c1, tokRest⟩⟩
  · simp [parseMeasure, hc, hsplit, addDiag]; exact ⟨hne, hnd⟩
  · simp [parseMeasure, hc, hsplit, addDiag]; exact ⟨hne, hnd⟩
  rcases hx : pyFloat c0 with _ | x
  · simp [parseMeasure, hc, hsplit, hx, addDiag]; exact ⟨hne, hnd⟩
  rcases hy : pyFloat c1 with _ | y
  · simp [parseMeasure, hc, hsplit, hx, hy, addDiag]; exact ⟨hne, hnd⟩
  rcases hlook : lookup2 st.data img ptId with _ | cdup
  · have hstep : parseMeasure img st ⟨some ptId, some (some t)⟩
        = { st with data := insertPt st.data img ptId (x, y) } := by
      simp [parseMeasure, hc, hsplit, hx, hy, hlook]
    rw [hstep]
    exact ⟨dictNE_insertPt hne img ptId (x, y), dictNodup_insertPt hnd hlook (x, y)⟩
  · have hsome : (lookup2 st.data img ptId).isSome := by simp [hlook]
    simp [parseMeasure, hc, hsplit, hx, hy, hsome, addDiag]
    exact ⟨hne, hnd⟩

theorem foldMeas_inv (img : Option String) (ms : List OneMesure) :
    ∀ st : RunSt, dictNE st.data → dictNodup st.data →
      dictNE (ms.foldl (parseMeasure img) st).data ∧
      dictNodup (ms.foldl (parseMeasure img) st).data := by
  induction ms with
  | nil => intro st hne hnd; exact ⟨hne, hnd⟩
  | cons m r ih =>
    intro st hne hnd
    obtain ⟨hne1, hnd1⟩ := parseMeasure_inv img st m hne hnd
    exact ih (parseMeasure img st m) hne1 hnd1

theorem parseImage_inv (st : RunSt) (ie : ImageElem)
    (hne : dictNE st.data) (hnd : dictNodup st.data) :
    dictNE (parseImage st ie).data ∧ dictNodup (parseImage st ie).data := by
  by_cases hc : st.crashed
  · rw [parseImage_crashed st ie hc]; exact ⟨hne, hnd⟩
  rcases ie with ⟨nim, ms⟩
  rcases nim with _ | imgName
  · simp [parseImage, hc, addDiag]; exact ⟨hne, hnd⟩
  · have : parseImage st ⟨some imgName, ms⟩ = ms.foldl (parseMeasure imgName) st := by
      simp [parseImage, hc]
    rw [this]
    exact foldMeas_inv imgName ms st hne hnd

theorem foldImg_inv (ies : List ImageElem) :
    ∀ st : RunSt, dictNE st.data → dictNodup st.data →
      dictNE (ies.foldl parseImage st).data ∧ dictNodup (ies.foldl parseImage st).data := by
  induction ies with
  | nil => intro st hne hnd; exact ⟨hne, hnd⟩
  | cons ie r ih =>
    intro st hne hnd
    obtain ⟨hne1, hnd1⟩ := parseImage_inv st ie hne hnd
    exact ih (parseImage st ie) hne1 hnd1

theorem parse_inv (f : FileInput) :
    dictNE (parse_xml_file f).data ∧ dictNodup (parse_xml_file f).data := by
  rcases f with _ | _ | ⟨tag, imgs⟩
  · exact ⟨dictNE_nil, dictNodup_nil⟩
  · exact ⟨dictNE_nil, dictNodup_nil⟩
  · by_cases htag : tag = rootTag
    · have : parse_xml_file (.parsed tag imgs) = imgs.foldl parseImage ⟨[], [], false⟩ := by
        simp [parse_xml_file, htag]
      rw [this]
      exact foldImg_inv imgs ⟨[], [], false⟩ dictNE_nil dictNodup_nil
    · simp [parse_xml_file, htag]
      exact ⟨dictNE_nil, dictNodup_nil⟩

theorem mergeRecord_inv (keepS exclS : Option (List String)) (st : RunSt) (r : SrcRec)
    (hne : dictNE st.data) (hnd : dictNodup st.data) :
    dictNE (mergeRecord keepS exclS st r).data ∧
    dictNodup (mergeRecord keepS exclS st r).data := by
  rcases hpass : passesFilter keepS exclS r.pt with _ | _
  · simp [mergeRecord, hpass]; exact ⟨hne, hnd⟩
  rcases hlook : lookup2 st.data r.img r.pt with _ | c
  · simp only [mergeRecord, hpass, if_true, hlook, Option.isSome_none, Bool.false_eq_true,
      if_false]
    exact ⟨dictNE_insertPt hne r.img r.pt r.c, dictNodup_insertPt hnd hlook r.c⟩
  · have hsome : (lookup2 st.data r.img r.pt).isSome := by simp [hlook]
    simp [mergeRecord, hpass, hsome, addDiag]
    exact ⟨hne, hnd⟩

theorem foldRec_inv (keepS exclS : Option (List String)) (rs : List SrcRec) :
    ∀ st : RunSt, dictNE st.data → dictNodup st.data →
      dictNE (rs.foldl (mergeRecord keepS exclS) st).data ∧
      dictNodup (rs.foldl (mergeRecord keepS exclS) st).data := by
  induction rs with
  | nil => intro st hne hnd; exact ⟨hne, hnd⟩
  | cons r t ih =>
    intro st hne hnd
    obtain ⟨hne1, hnd1⟩ := mergeRecord_inv keepS exclS st r hne hnd
    exact ih (mergeRecord keepS exclS st r) hne1 hnd1

theorem mergeStep_inv (keepS exclS : Option (List String)) (st : RunSt) (f : FileInput)
    (hne : dictNE st.data) (hnd : dictNodup st.data) :
    dictNE (mergeStep keepS exclS st f).data ∧ dictNodup (mergeStep keepS exclS st f).data := by
  by_cases hc : st.crashed
  · rw [mergeStep_crashed keepS exclS st f hc]; exact ⟨hne, hnd⟩
  rcases f with _ | _ | ⟨tag, imgs⟩
  · simp [mergeStep, hc, addDiag]; exact ⟨hne, hnd⟩
  · by_cases hpc : (parse_xml_file FileInput.unparsable).crashed
    · simp [mergeStep, hc, hpc]; exact ⟨hne, hnd⟩
    · simp only [mergeStep, hc, Bool.false_eq_true, if_false]
      rw [if_neg (by simpa using hpc)]
      exact foldRec_inv keepS exclS _ _ hne hnd
  · by_cases hpc : (parse_xml_file (.parsed tag imgs)).crashed
    · simp [mergeStep, hc, hpc]; exact ⟨hne, hnd⟩
    · simp only [mergeStep, hc, Bool.false_eq_true, if_false]
      rw [if_neg (by simpa using hpc)]
      exact foldRec_inv keepS exclS _ _ hne hnd

theorem mergeFrom_inv (keepS exclS : Option (List String)) (files : List FileInput) :
    ∀ st : RunSt, dictNE st.data → dictNodup st.data →
      dictNE (mergeFrom keepS exclS st files).data ∧
      dictNodup (mergeFrom keepS exclS st files).data := by
  induction files with
  | nil => intro st hne hnd; exact ⟨hne, hnd⟩
  | cons f r ih =>
    intro st hne hnd
    obtain ⟨hne1, hnd1⟩ := mergeStep_inv keepS exclS st f hne hnd
    exact ih (mergeStep keepS exclS st f) hne1 hnd1

theorem merge_inv (files : List FileInput) (keep_list exclude_list : Option (List String)) :
    dictNE (merge_xml_files files keep_list exclude_list).data ∧
    dictNodup (merge_xml_files files keep_list exclude_list).data :=
  mergeFrom_inv _ _ files ⟨[], [], false⟩ dictNE_nil dictNodup_nil

/-! ### Flattened dictionaries vs. lookups -/

theorem firstVal_map_pts (img : Option String) (pts : PtMap) (i p : Option String) :
    firstVal (pts.map (fun q => SrcRec.mk img q.1 q.2)) i p
      = if img = i then lookupA pts p else none := by
  induction pts with
  | nil => simp [firstVal, lookupA]
  | cons q rest ih =>
    obtain ⟨k, c⟩ := q
    by_cases hi : img = i
    · subst hi
      by_cases hk : k = p
      · subst hk
        simp [firstVal, lookupA]
      · simp [firstVal, lookupA, hk, ih]
    · have : ¬(img = i ∧ k = p) := fun hh => hi hh.1
      simp [firstVal, lookupA, hi, this, ih]

theorem occCount_map_pts_nodup (img : Option String) (pts : PtMap) (i p : Option String)
    (hnd : (pts.map Prod.fst).Nodup) :
    occCount (pts.map (fun q => SrcRec.mk img q.1 q.2)) i p
      = if img = i ∧ (lookupA pts p).isSome then 1 else 0 := by
  induction pts with
  | nil => simp [occCount, lookupA]
  | cons q rest ih =>
    obtain ⟨k, c⟩ := q
    simp only [List.map_cons, List.nodup_cons] at hnd
    obtain ⟨hknot, hrest⟩ := hnd
    by_cases hi : img = i
    · subst hi
      by_cases hk : k = p
      · subst hk
        have hnone : lookupA rest k = none := (lookupA_eq_none_iff rest k).mpr hknot
        simp [occCount, lookupA, ih hrest, hnone]
      · simp [occCount, lookupA, hk, ih hrest]
    · have : ¬(img = i ∧ k = p) := fun hh => hi hh.1
      simp [occCount, lookupA, hi, this, ih hrest]

theorem firstVal_flattenAcc_not_mem (a : ImgDict) (i : Option String)
    (h : i ∉ a.map Prod.fst) (p : Option String) :
    firstVal (flattenAcc a) i p = none := by
  induction a with
  | nil => simp [flattenAcc, firstVal]
  | cons pr r ih =>
    obtain ⟨k, m⟩ := pr
    simp only [List.map_cons, List.mem_cons] at h
    push_neg at h
    have hk : ¬k = i := fun hh => h.1 hh.symm
    simp [flattenAcc, firstVal_append, firstVal_map_pts, hk, ih h.2, oor]

theorem firstVal_flattenAcc (a : ImgDict) (hnd : dictNodup a) (i p : Option String) :
    firstVal (flattenAcc a) i p = lookup2 a i p := by
  induction a with
  | nil => simp [flattenAcc, firstVal, lookup2_nil]
  | cons pr r ih =>
    obtain ⟨k, m⟩ := pr
    obtain ⟨hkeys, hpts⟩ := hnd
    simp only [List.map_cons, List.nodup_cons] at hkeys
    rw [lookup2_cons]
    by_cases hk : k = i
    · subst hk
      rw [if_pos rfl]
      have hnotmem : firstVal (flattenAcc r) k p = none :=
        firstVal_flattenAcc_not_mem r k hkeys.1 p
      rw [flattenAcc, firstVal_append, firstVal_map_pts, if_pos rfl, hnotmem, oor_none_right]
    · rw [if_neg hk]
      rw [flattenAcc, firstVal_append, firstVal_map_pts, if_neg hk, oor_none]
      exact ih ⟨hkeys.2, fun q hq => hpts q (List.mem_cons_of_mem _ hq)⟩

theorem occCount_flattenAcc (a : ImgDict) (hnd : dictNodup a) (i p : Option String) :
    occCount (flattenAcc a) i p = if (lookup2 a i p).isSome then 1 else 0 := by
  induction a with
  | nil => simp [flattenAcc, occCount, lookup2_nil]
  | cons pr r ih =>
    obtain ⟨k, m⟩ := pr
    obtain ⟨hkeys, hpts⟩ := hnd
    simp only [List.map_cons, List.nodup_cons] at hkeys
    have hmnd : (m.map Prod.fst).Nodup := hpts (k, m) (List.mem_cons_self _ _)
    rw [lookup2_cons]
    rw [flattenAcc, occCount_append, occCount_map_pts_nodup k m i p hmnd]
    by_cases hk : k = i
    · subst hk
      have hnone : lookup2 r k p = none := by
        rcases hl : lookup2 r k p with _ | v
        · rfl
        · rcases hli : lookupA r k with _ | m'
          · simp [lookup2, hli] at hl
          · exact absurd ((lookupA_isSome_iff r k).mp (by simp [hli])) hkeys.1
      have ihr := ih ⟨hkeys.2, fun q hq => hpts q (List.mem_cons_of_mem _ hq)⟩
      rw [ihr, hnone]
      simp
    · have : ¬(k = i ∧ (lookupA m p).isSome) := fun hh => hk hh.1
      rw [if_neg this, if_neg hk]
      have ihr := ih ⟨hkeys.2, fun q hq => hpts q (List.mem_cons_of_mem _ hq)⟩
      rw [ihr]
      omega

/-! ### Merge characterization: the record loop -/

theorem foldRec_spec (keepS exclS : Option (List String)) (rs : List SrcRec) :
    ∀ st : RunSt, ∀ i p : Option String,
      lookup2 (rs.foldl (mergeRecord keepS exclS) st).data i p
        = oor (lookup2 st.data i p)
            (if passesFilter keepS exclS p then firstVal rs i p else none) ∧
      dupDiagCount (rs.foldl (mergeRecord keepS exclS) st).diags i p
        = dupDiagCount st.diags i p +
          (if passesFilter keepS exclS p then
            (if (lookup2 st.data i p).isSome then occCount rs i p else occCount rs i p - 1)
           else 0) := by
  induction rs with
  | nil =>
    intro st i p
    constructor
    · simp only [List.foldl_nil, firstVal]
      split_ifs <;> rw [oor_none_right]
    · simp only [List.foldl_nil, occCount]
      split_ifs <;> simp
  | cons r0 rest ih =>
    intro st i p
    rcases r0 with ⟨rimg, rpt, rc⟩
    by_cases hkey : i = rimg ∧ p = rpt
    · obtain ⟨hi, hp⟩ := hkey
      subst hi; subst hp
      have hfv : firstVal (⟨i, p, rc⟩ :: rest) i p = some rc := by simp [firstVal]
      have hoc : occCount (⟨i, p, rc⟩ :: rest) i p = 1 + occCount rest i p := by
        simp [occCount]
      by_cases hpass : passesFilter keepS exclS p
      · rcases hlook : lookup2 st.data i p with _ | cdup
        · -- fresh key, inserted
          have hstep : mergeRecord keepS exclS st ⟨i, p, rc⟩
              = { st with data := insertPt st.data i p rc } := by
            simp [mergeRecord, hpass, hlook]
          rw [List.foldl_cons, hstep]
          obtain ⟨hl, hd⟩ := ih { st with data := insertPt st.data i p rc } i p
          dsimp only at hl hd
          rw [lookup2_insertPt st.data i p rc hlook i p] at hl hd
          constructor
          · rw [hl, hlook, if_pos hpass, if_pos hpass, hfv]
            simp [oor]
          · rw [hd, hlook, if_pos hpass, if_pos hpass, hoc]
            simp
        · -- duplicate across sources
          have hsome : (lookup2 st.data i p).isSome := by simp [hlook]
          have hstep : mergeRecord keepS exclS st ⟨i, p, rc⟩
              = addDiag st (.dupAcross i p) := by
            simp [mergeRecord, hpass, hsome]
          rw [List.foldl_cons, hstep]
          obtain ⟨hl, hd⟩ := ih (addDiag st (.dupAcross i p)) i p
          simp only [addDiag] at hl hd ⊢
          rw [dupDiagCount_append, dupDiagCount_single_across] at hd
          constructor
          · rw [hl, hlook, if_pos hpass, if_pos hpass, hfv]
            simp [oor]
          · rw [hd, if_pos hpass, if_pos hpass, hoc]
            simp [hlook]
            omega
      · -- the record is filtered out
        have hstep : mergeRecord keepS exclS st ⟨i, p, rc⟩ = st := by
          simp [mergeRecord, hpass]
        rw [List.foldl_cons, hstep]
        obtain ⟨hl, hd⟩ := ih st i p
        rw [if_neg hpass] at hl hd
        constructor
        · rw [hl, if_neg hpass]
        · rw [hd, if_neg hpass]
    · -- a record for some other key
      have hnotkey : ¬(rimg = i ∧ rpt = p) := fun hh => hkey ⟨hh.1.symm, hh.2.symm⟩
      have hfv : firstVal (⟨rimg, rpt, rc⟩ :: rest) i p = firstVal rest i p := by
        simp [firstVal, hnotkey]
      have hoc : occCount (⟨rimg, rpt, rc⟩ :: rest) i p = occCount rest i p := by
        simp [occCount, hnotkey]
      rw [List.foldl_cons]
      by_cases hpass0 : passesFilter keepS exclS rpt
      · rcases hlook0 : lookup2 st.data rimg rpt with _ | cdup
        · -- other key inserted
          have hstep : mergeRecord keepS exclS st ⟨rimg, rpt, rc⟩
              = { st with data := insertPt st.data rimg rpt rc } := by
            simp [mergeRecord, hpass0, hlook0]
          rw [hstep]
          obtain ⟨hl, hd⟩ := ih { st with data := insertPt st.data rimg rpt rc } i p
          dsimp only at hl hd
          rw [lookup2_insertPt st.data rimg rpt rc hlook0 i p] at hl hd
          rw [if_neg hkey] at hl hd
          exact ⟨by rw [hl, hfv], by rw [hd, hoc]⟩
        · -- other key duplicate
          have hsome : (lookup2 st.data rimg rpt).isSome := by simp [hlook0]
          have hstep : mergeRecord keepS exclS st ⟨rimg, rpt, rc⟩
              = addDiag st (.dupAcross rimg rpt) := by
            simp [mergeRecord, hpass0, hsome]
          rw [hstep]
          obtain ⟨hl, hd⟩ := ih (addDiag st (.dupAcross rimg rpt)) i p
          simp only [addDiag] at hl hd ⊢
          have h0 : dupDiagCount [Diag.dupAcross rimg rpt] i p = 0 := by
            apply dupDiagCount_single_other
            · simp
            · simp only [ne_eq, Diag.dupAcross.injEq, not_and]
              intro hc
              exact fun hp => hnotkey ⟨hc, hp⟩
          rw [dupDiagCount_append, h0] at hd
          constructor
          · rw [hl, hfv]
          · rw [hd, hoc]
            omega
      · -- other key filtered out
        have hstep : mergeRecord keepS exclS st ⟨rimg, rpt, rc⟩ = st := by
          simp [mergeRecord, hpass0]
        rw [hstep]
        obtain ⟨hl, hd⟩ := ih st i p
        exact ⟨by rw [hl, hfv], by rw [hd, hoc]⟩

theorem mergeRecord_crashed (keepS exclS : Option (List String)) (st : RunSt) (r : SrcRec) :
    (mergeRecord keepS exclS st r).crashed = st.crashed := by
  rcases hpass : passesFilter keepS exclS r.pt with _ | _
  · simp [mergeRecord, hpass]
  · rcases hlook : lookup2 st.data r.img r.pt with _ | c
    · simp [mergeRecord, hpass, hlook]
    · have hsome : (lookup2 st.data r.img r.pt).isSome := by simp [hlook]
      simp [mergeRecord, hpass, hsome, addDiag]

theorem foldRec_crashed (keepS exclS : Option (List String)) (rs : List SrcRec) :
    ∀ st : RunSt, (rs.foldl (mergeRecord keepS exclS) st).crashed = st.crashed := by
  induction rs with
  | nil => intro st; rfl
  | cons r rest ih =>
    intro st
    rw [List.foldl_cons, ih, mergeRecord_crashed]

/-! ### Merge characterization: files -/

theorem mergeStep_eq_missing (keepS exclS : Option (List String)) (st : RunSt)
    (h : st.crashed = false) :
    mergeStep keepS exclS st .missing = addDiag st .missingSource := by
  simp [mergeStep, h]

theorem mergeStep_eq_parse (keepS exclS : Option (List String)) (st : RunSt) (f : FileInput)
    (h : st.crashed = false) (hf : f ≠ .missing)
    (hpc : (parse_xml_file f).crashed = false) :
    mergeStep keepS exclS st f
      = (flattenAcc (parse_xml_file f).data).foldl (mergeRecord keepS exclS)
          { st with diags := st.diags ++ (parse_xml_file f).diags } := by
  rcases f with _ | _ | ⟨tag, imgs⟩
  · exact absurd rfl hf
  · simp [mergeStep, h, hpc]
  · simp [mergeStep, h, hpc]

theorem mergeStep_eq_crash (keepS exclS : Option (List String)) (st : RunSt) (f : FileInput)
    (h : st.crashed = false) (hpc : (parse_xml_file f).crashed = true) :
    mergeStep keepS exclS st f
      = { st with diags := st.diags ++ (parse_xml_file f).diags, crashed := true } := by
  rcases f with _ | _ | ⟨tag, imgs⟩
  · exact absurd hpc (by simp [parse_xml_file])
  · simp [mergeStep, h, hpc]
  · simp [mergeStep, h, hpc]

theorem mergeStep_crashed_eq (keepS exclS : Option (List String)) (st : RunSt) (f : FileInput)
    (h : st.crashed = false) :
    (mergeStep keepS exclS st f).crashed = (parse_xml_file f).crashed := by
  rcases hpc : (parse_xml_file f).crashed with _ | _
  · by_cases hmiss : f = FileInput.missing
    · subst hmiss
      rw [mergeStep_eq_missing keepS exclS st h]
      simpa [addDiag] using h
    · rw [mergeStep_eq_parse keepS exclS st f h hmiss hpc, foldRec_crashed]
      exact h
  · rw [mergeStep_eq_crash keepS exclS st f h hpc]

theorem mergeFrom_crashed_eq (keepS exclS : Option (List String)) (files : List FileInput) :
    ∀ st : RunSt, st.crashed = false →
      (mergeFrom keepS exclS st files).crashed
        = files.any (fun f => (parse_xml_file f).crashed) := by
  induction files with
  | nil => intro st h; simpa using h
  | cons f r ih =>
    intro st h
    rw [mergeFrom]
    rcases hpc : (parse_xml_file f).crashed with _ | _
    · have hc1 : (mergeStep keepS exclS st f).crashed = false := by
        rw [mergeStep_crashed_eq keepS exclS st f h, hpc]
      rw [ih _ hc1]
      simp [hpc]
    · have hc1 : (mergeStep keepS exclS st f).crashed = true := by
        rw [mergeStep_crashed_eq keepS exclS st f h, hpc]
      rw [mergeFrom_crashed keepS exclS r _ hc1, hc1]
      simp [hpc]

theorem mergeFrom_lookup (keepS exclS : Option (List String)) (files : List FileInput) :
    ∀ st : RunSt, (mergeFrom keepS exclS st files).crashed = false →
      ∀ i p : Option String,
        lookup2 (mergeFrom keepS exclS st files).data i p
          = oor (lookup2 st.data i p)
              (if passesFilter keepS exclS p then firstVal (recStream files) i p
               else none) := by
  induction files with
  | nil =>
    intro st h i p
    simp only [mergeFrom, recStream, firstVal]
    split_ifs <;> rw [oor_none_right]
  | cons f r ih =>
    intro st h i p
    have hst : st.crashed = false := by
      by_contra hc
      rw [Bool.not_eq_false] at hc
      rw [mergeFrom, mergeStep_crashed keepS exclS st f hc,
        mergeFrom_crashed keepS exclS r st hc] at h
      rw [h] at hc
      exact Bool.false_ne_true hc
    rw [mergeFrom] at h ⊢
    have hc1 : (mergeStep keepS exclS st f).crashed = false := by
      by_contra hcc
      rw [Bool.not_eq_false] at hcc
      rw [mergeFrom_crashed keepS exclS r _ hcc] at h
      rw [h] at hcc
      exact Bool.false_ne_true hcc
    have hpc : (parse_xml_file f).crashed = false := by
      rw [← mergeStep_crashed_eq keepS exclS st f hst]
      exact hc1
    by_cases hmiss : f = FileInput.missing
    · subst hmiss
      have hstream : recStream (FileInput.missing :: r) = recStream r := by
        simp [recStream, fileStream]
      rw [mergeStep_eq_missing keepS exclS st hst] at h ⊢
      rw [hstream]
      have := ih (addDiag st .missingSource) h i p
      simpa [addDiag] using this
    · rw [mergeStep_eq_parse keepS exclS st f hst hmiss hpc] at h ⊢
      rw [recStream, firstVal_append]
      have ihr := ih _ h i p
      rw [ihr]
      obtain ⟨hl1, _⟩ := foldRec_spec keepS exclS (flattenAcc (parse_xml_file f).data)
        { st with diags := st.diags ++ (parse_xml_file f).diags } i p
      rw [hl1]
      have hfl : firstVal (flattenAcc (parse_xml_file f).data) i p
          = firstVal (fileStream f) i p := by
        rw [firstVal_flattenAcc _ (parse_inv f).2, (parse_spec f hpc i p).1]
      rw [hfl]
      dsimp only
      rw [oor_assoc]
      congr 1
      split_ifs
      · rfl
      · rfl

theorem passesFilter_none (p : Option String) : passesFilter none none p = true := rfl

theorem dup_count_file_compose (A B : Option Coords) (nf nr D : Nat)
    (hB : B.isSome ↔ 0 < nf) :
    ((D + (nf - 1)) + (if A.isSome then (if B.isSome then 1 else 0)
        else (if B.isSome then 1 else 0) - 1)) +
      (if (oor A B).isSome then nr else nr - 1)
      = D + (if A.isSome then nf + nr else nf + nr - 1) := by
  rcases A with _ | a <;> rcases B with _ | b <;> simp [oor] at hB ⊢ <;> omega

theorem mergeFrom_dup (files : List FileInput) :
    ∀ st : RunSt, (mergeFrom none none st files).crashed = false →
      ∀ i p : Option String,
        dupDiagCount (mergeFrom none none st files).diags i p
          = dupDiagCount st.diags i p +
            (if (lookup2 st.data i p).isSome then occCount (recStream files) i p
             else occCount (recStream files) i p - 1) := by
  induction files with
  | nil =>
    intro st h i p
    simp only [mergeFrom, recStream, occCount]
    split_ifs <;> simp
  | cons f r ih =>
    intro st h i p
    have hst : st.crashed = false := by
      by_contra hc
      rw [Bool.not_eq_false] at hc
      rw [mergeFrom, mergeStep_crashed none none st f hc,
        mergeFrom_crashed none none r st hc] at h
      rw [h] at hc
      exact Bool.false_ne_true hc
    rw [mergeFrom] at h ⊢
    have hc1 : (mergeStep none none st f).crashed = false := by
      by_contra hcc
      rw [Bool.not_eq_false] at hcc
      rw [mergeFrom_crashed none none r _ hcc] at h
      rw [h] at hcc
      exact Bool.false_ne_true hcc
    have hpc : (parse_xml_file f).crashed = false := by
      rw [← mergeStep_crashed_eq none none st f hst]
      exact hc1
    by_cases hmiss : f = FileInput.missing
    · subst hmiss
      have hstream : recStream (FileInput.missing :: r) = recStream r := by
        simp [recStream, fileStream]
      rw [mergeStep_eq_missing none none st hst] at h ⊢
      rw [hstream]
      have h0 : dupDiagCount [Diag.missingSource] i p = 0 :=
        dupDiagCount_single_other i p (by simp) (by simp)
      have := ih (addDiag st .missingSource) h i p
      simpa [addDiag, dupDiagCount_append, h0] using this
    · rw [mergeStep_eq_parse none none st f hst hmiss hpc] at h ⊢
      rw [recStream, occCount_append]
      have ihr := ih _ h i p
      rw [ihr]
      obtain ⟨hl1, hd1⟩ := foldRec_spec none none (flattenAcc (parse_xml_file f).data)
        { st with diags := st.diags ++ (parse_xml_file f).diags } i p
      rw [hd1]
      simp only [hl1]
      have hfl : firstVal (flattenAcc (parse_xml_file f).data) i p
          = firstVal (fileStream f) i p := by
        rw [firstVal_flattenAcc _ (parse_inv f).2, (parse_spec f hpc i p).1]
      have hofl : occCount (flattenAcc (parse_xml_file f).data) i p
          = if (firstVal (fileStream f) i p).isSome then 1 else 0 := by
        rw [occCount_flattenAcc _ (parse_inv f).2, (parse_spec f hpc i p).1]
      rw [hfl, hofl]
      dsimp only
      rw [dupDiagCount_append, (parse_spec f hpc i p).2, passesFilter_none, if_pos rfl]
      exact dup_count_file_compose _ _ _ _ _
        ((occCount_pos_iff_firstVal (fileStream f) i p).symm)

/-! ### Top-level merge characterization -/

theorem merge_crashed_eq (files : List FileInput) (keep_list exclude_list : Option (List String)) :
    (merge_xml_files files keep_list exclude_list).crashed
      = files.any (fun f => (parse_xml_file f).crashed) :=
  mergeFrom_crashed_eq _ _ files ⟨[], [], false⟩ rfl

theorem merge_lookup (files : List FileInput) (keep_list exclude_list : Option (List String))
    (h : (merge_xml_files files keep_list exclude_list).crashed = false)
    (i p : Option String) :
    lookup2 (merge_xml_files files keep_list exclude_list).data i p
      = if passesFilter (toFilterSet keep_list) (toFilterSet exclude_list) p then
          firstVal (recStream files) i p
        else none := by
  have := mergeFrom_lookup (toFilterSet keep_list) (toFilterSet exclude_list) files
    ⟨[], [], false⟩ h i p
  simpa [merge_xml_files, lookup2_nil, oor] using this

theorem merge_dup (files : List FileInput)
    (h : (merge_xml_files files none none).crashed = false) (i p : Option String) :
    dupDiagCount (merge_xml_files files none none).diags i p
      = occCount (recStream files) i p - 1 := by
  have := mergeFrom_dup files ⟨[], [], false⟩ h i p
  simpa [merge_xml_files, toFilterSet, lookup2_nil, dupDiagCount] using this

/-! ### The writer's orders -/

theorem listStrLt_irrefl (a : List Char) : listStrLt a a = false := by
  induction a with
  | nil => rfl
  | cons c r ih => simp [listStrLt, ih]

theorem listStrLt_asymm : ∀ {a b : List Char}, listStrLt a b = true → listStrLt b a = false
  | [], [], h => by simp [listStrLt] at h
  | [], _ :: _, _ => rfl
  | _ :: _, [], h => by simp [listStrLt] at h
  | a :: as, b :: bs, h => by
    by_cases h1 : a < b
    · have hba : ¬b < a := lt_asymm h1
      simp [listStrLt, hba, h1]
    · by_cases h2 : b < a
      · simp [listStrLt, h1, h2] at h
      · simp only [listStrLt, if_neg h1, if_neg h2] at h
        simp only [listStrLt, if_neg h2, if_neg h1]
        exact listStrLt_asymm h

theorem listStrLt_trans : ∀ {a b c : List Char},
    listStrLt a b = true → listStrLt b c = true → listStrLt a c = true
  | [], _, _ :: _, _, _ => rfl
  | [], _ :: _, [], _, h2 => by simp [listStrLt] at h2
  | [], [], _, h1, _ => by simp [listStrLt] at h1
  | _ :: _, [], _, h1, _ => by simp [listStrLt] at h1
  | _ :: _, _ :: _, [], _, h2 => by simp [listStrLt] at h2
  | a :: as, b :: bs, c :: cs, h1, h2 => by
    by_cases hab : a < b
    · by_cases hbc : b < c
      · simp [listStrLt, lt_trans hab hbc]
      · by_cases hcb : c < b
        · simp [listStrLt, hbc, hcb] at h2
        · have hbc' : b = c := le_antisymm (not_lt.mp hcb) (not_lt.mp hbc)
          subst hbc'
          simp [listStrLt, hab]
    · by_cases hba : b < a
      · simp [listStrLt, hab, hba] at h1
      · have hab' : a = b := le_antisymm (not_lt.mp hba) (not_lt.mp hab)
        subst hab'
        simp only [listStrLt, if_neg hab, if_neg hba] at h1
        by_cases hac : a < c
        · simp [listStrLt, hac]
        · by_cases hca : c < a
          · simp [listStrLt, hac, hca] at h2
          · simp only [listStrLt, if_neg hac, if_neg hca] at h2 ⊢
            exact listStrLt_trans h1 h2

theorem listStrLt_connex : ∀ {a b : List Char},
    listStrLt a b = false → listStrLt b a = false → a = b
  | [], [], _, _ => rfl
  | [], _ :: _, h1, _ => by simp [listStrLt] at h1
  | _ :: _, [], _, h2 => by simp [listStrLt] at h2
  | a :: as, b :: bs, h1, h2 => by
    by_cases hab : a < b
    · simp [listStrLt, hab] at h1
    · by_cases hba : b < a
      · simp [listStrLt, hba] at h2
      · have hab' : a = b := le_antisymm (not_lt.mp hba) (not_lt.mp hab)
        subst hab'
        simp only [listStrLt, if_neg hab, if_neg hba] at h1 h2
        rw [listStrLt_connex h1 h2]

theorem pyStrLt_irrefl (a : String) : pyStrLt a a = false := listStrLt_irrefl a.data

theorem pyStrLt_asymm {a b : String} (h : pyStrLt a b = true) : pyStrLt b a = false :=
  listStrLt_asymm h

theorem pyStrLt_trans {a b c : String} (h1 : pyStrLt a b = true) (h2 : pyStrLt b c = true) :
    pyStrLt a c = true :=
  listStrLt_trans h1 h2

theorem pyStrLt_connex {a b : String} (h1 : pyStrLt a b = false) (h2 : pyStrLt b a = false) :
    a = b := by
  cases a with
  | mk la =>
    cases b with
    | mk lb =>
      have : la = lb := listStrLt_connex h1 h2
      rw [this]

theorem keyLtB_asymm {k1 k2 : Nat × String} (h : keyLtB k1 k2 = true) :
    keyLtB k2 k1 = false := by
  unfold keyLtB at *
  simp only [Bool.or_eq_true, Bool.and_eq_true, decide_eq_true_eq] at h
  rcases h with h | ⟨he, hs⟩
  · have h1 : ¬k2.1 < k1.1 := Nat.lt_asymm h
    have h2 : ¬k2.1 = k1.1 := ne_of_gt h
    simp [h1, h2]
  · have h1 : ¬k2.1 < k1.1 := by rw [he]; exact lt_irrefl _
    simp [h1, pyStrLt_asymm hs]

theorem keyLtB_trans {k1 k2 k3 : Nat × String}
    (h1 : keyLtB k1 k2 = true) (h2 : keyLtB k2 k3 = true) : keyLtB k1 k3 = true := by
  unfold keyLtB at *
  simp only [Bool.or_eq_true, Bool.and_eq_true, decide_eq_true_eq] at h1 h2 ⊢
  rcases h1 with h1 | ⟨he1, hs1⟩
  · rcases h2 with h2 | ⟨he2, hs2⟩
    · exact Or.inl (lt_trans h1 h2)
    · exact Or.inl (he2 ▸ h1)
  · rcases h2 with h2 | ⟨he2, hs2⟩
    · exact Or.inl (he1 ▸ h2)
    · exact Or.inr ⟨he1.trans he2, pyStrLt_trans hs1 hs2⟩

theorem keyLtB_connex {k1 k2 : Nat × String}
    (h1 : keyLtB k1 k2 = false) (h2 : keyLtB k2 k1 = false) : k1 = k2 := by
  unfold keyLtB at *
  simp only [Bool.or_eq_false_iff, Bool.and_eq_false_iff, decide_eq_false_iff_not] at h1 h2
  obtain ⟨hn1, hrest1⟩ := h1
  obtain ⟨hn2, hrest2⟩ := h2
  have he : k1.1 = k2.1 := le_antisymm (not_lt.mp hn2) (not_lt.mp hn1)
  rcases hrest1 with h1' | h1'
  · exact absurd he (by simpa using h1')
  · rcases hrest2 with h2' | h2'
    · exact absurd he.symm (by simpa using h2')
    · have hs : k1.2 = k2.2 := pyStrLt_connex (by simpa using h1') (by simpa using h2')
      exact Prod.ext he hs

theorem ptKey_snd (a : String) : (ptKey a).2 = a := by
  unfold ptKey; split_ifs <;> rfl

theorem ptKey_inj {a b : String} (h : ptKey a = ptKey b) : a = b := by
  have := congrArg Prod.snd h
  rwa [ptKey_snd, ptKey_snd] at this

instance : IsTotal (String × Coords) ptPairLe := by
  constructor
  intro p q
  unfold ptPairLe
  rcases hlt : keyLtB (ptKey q.1) (ptKey p.1) with _ | _
  · left; rfl
  · right; exact keyLtB_asymm hlt

instance : IsTrans (String × Coords) ptPairLe := by
  constructor
  intro p q r h1 h2
  unfold ptPairLe at *
  by_contra hc
  rw [Bool.not_eq_false] at hc
  rcases hq : keyLtB (ptKey r.1) (ptKey q.1) with _ | _
  · rcases hq2 : keyLtB (ptKey q.1) (ptKey r.1) with _ | _
    · have heq : ptKey q.1 = ptKey r.1 := keyLtB_connex hq2 hq
      rw [← heq] at hc
      rw [hc] at h1
      cases h1
    · have := keyLtB_trans hq2 hc
      rw [this] at h1
      cases h1
  · rw [hq] at h2
    cases h2

instance : IsTotal String strLe := by
  constructor
  intro a b
  unfold strLe
  rcases hlt : pyStrLt b a with _ | _
  · left; rfl
  · right; exact pyStrLt_asymm hlt

instance : IsTrans String strLe := by
  constructor
  intro a b c h1 h2
  unfold strLe at *
  by_contra hc
  rw [Bool.not_eq_false] at hc
  rcases hq : pyStrLt c b with _ | _
  · rcases hq2 : pyStrLt b c with _ | _
    · have heq : b = c := pyStrLt_connex hq2 hq
      rw [← heq] at hc
      rw [hc] at h1
      cases h1
    · have := pyStrLt_trans hq2 hc
      rw [this] at h1
      cases h1
  · rw [hq] at h2
    cases h2

/-! ### Writer characterization -/

theorem allSomeKeys_spec : ∀ {pts : PtMap} {pts' : List (String × Coords)},
    allSomeKeys pts = some pts' →
    pts'.length = pts.length ∧
    pts'.map (fun q => ((some q.1 : Option String), q.2)) = pts := by
  intro pts
  induction pts with
  | nil =>
    intro pts' h
    simp only [allSomeKeys, Option.some_inj] at h
    subst h
    simp
  | cons q rest ih =>
    intro pts' h
    rcases q with ⟨k, c⟩
    rcases k with _ | ks
    · simp [allSomeKeys] at h
    · simp only [allSomeKeys] at h
      rcases hr : allSomeKeys rest with _ | rest'
      · rw [hr] at h; simp at h
      · rw [hr] at h
        simp only [Option.map_some', Option.some_inj] at h
        subst h
        obtain ⟨hlen, hmap⟩ := ih hr
        constructor
        · simp [hlen]
        · simp [hmap]

theorem allSomeStrs_spec : ∀ {keys : List (Option String)} {skeys : List String},
    allSomeStrs keys = some skeys →
    skeys.map (fun k => (some k : Option String)) = keys := by
  intro keys
  induction keys with
  | nil =>
    intro skeys h
    simp only [allSomeStrs, Option.some_inj] at h
    subst h
    simp
  | cons k rest ih =>
    intro skeys h
    rcases k with _ | ks
    · simp [allSomeStrs] at h
    · simp only [allSomeStrs] at h
      rcases hr : allSomeStrs rest with _ | rest'
      · rw [hr] at h; simp at h
      · rw [hr] at h
        simp only [Option.map_some', Option.some_inj] at h
        subst h
        simp [ih hr]

theorem buildImage_ok {a : ImgDict} {k : Option String} {wi : WImage}
    (h : buildImage a k = .ok wi) :
    wi.name = k ∧
    ∃ pts', allSomeKeys ((lookupA a k).getD []) = some pts' ∧
      wi.pts = (sortPts pts').map (fun p => (p.1, fmtPair p.2)) := by
  simp only [buildImage] at h
  rcases hk : allSomeKeys ((lookupA a k).getD []) with _ | pts'
  · rw [hk] at h; cases h
  · rw [hk] at h
    injection h with h
    subst h
    exact ⟨rfl, pts', rfl, rfl⟩

theorem buildImage_pts_length {a : ImgDict} {k : Option String} {wi : WImage}
    (h : buildImage a k = .ok wi) :
    wi.pts.length = ((lookupA a k).getD []).length := by
  obtain ⟨-, pts', hks, hpts⟩ := buildImage_ok h
  rw [hpts, List.length_map]
  have hperm : List.Perm (sortPts pts') pts' := List.perm_insertionSort ptPairLe pts'
  rw [hperm.length_eq, (allSomeKeys_spec hks).1]

theorem buildImages_ok {a : ImgDict} : ∀ {keys : List (Option String)} {ws : List WImage},
    buildImages a keys = .ok ws →
    ws.map (fun wi => wi.pts.length) = keys.map (fun k => ((lookupA a k).getD []).length) ∧
    ws.length = keys.length ∧
    (∀ wi ∈ ws, ∃ k ∈ keys, buildImage a k = .ok wi) := by
  intro keys
  induction keys with
  | nil =>
    intro ws h
    simp only [buildImages] at h
    injection h with h
    subst h
    simp
  | cons k ks ih =>
    intro ws h
    simp only [buildImages] at h
    rcases hb : buildImage a k with e | wi0
    · rw [hb] at h; cases h
    · rw [hb] at h
      rcases hbs : buildImages a ks with e | ws0
      · rw [hbs] at h; cases h
      · rw [hbs] at h
        injection h with h
        subst h
        obtain ⟨hmap, hlen, hmem⟩ := ih hbs
        refine ⟨?_, ?_, ?_⟩
        · simp [hmap, buildImage_pts_length hb]
        · simp [hlen]
        · intro wi hwi
          rcases List.mem_cons.mp hwi with h1 | h1
          · exact ⟨k, List.mem_cons_self _ _, h1 ▸ hb⟩
          · obtain ⟨k', hk', hb'⟩ := hmem wi h1
            exact ⟨k', List.mem_cons_of_mem _ hk', hb'⟩

theorem finishWrite_ok {a : ImgDict} {ks : List (Option String)} {out : WOut}
    (h : finishWrite a ks = .ok out) :
    buildImages a ks = .ok out.images ∧ out.reportedImages = a.length ∧
    out.reportedPoints = (a.map (fun p => p.2.length)).sum ∧ out.retVal = none := by
  simp only [finishWrite] at h
  rcases hb : buildImages a ks with e | ws
  · rw [hb] at h; cases h
  · rw [hb] at h
    injection h with h
    subst h
    exact ⟨rfl, rfl, rfl, rfl⟩

theorem write_ok_parts {a : ImgDict} {out : WOut}
    (h : write_xml_output a = .ok out) :
    (∃ keysSorted : List (Option String),
       (∀ k ∈ keysSorted, k ∈ a.map Prod.fst) ∧
       List.Perm keysSorted (a.map Prod.fst) ∧
       buildImages a keysSorted = .ok out.images) ∧
    out.reportedImages = a.length ∧
    out.reportedPoints = (a.map (fun p => p.2.length)).sum ∧
    out.retVal = none := by
  simp only [write_xml_output] at h
  rcases hs : allSomeStrs (a.map Prod.fst) with _ | skeys
  · rw [hs] at h
    split_ifs at h
    obtain ⟨hb, h1, h2, h3⟩ := finishWrite_ok h
    exact ⟨⟨a.map Prod.fst, fun k hk => hk, List.Perm.refl _, hb⟩, h1, h2, h3⟩
  · rw [hs] at h
    obtain ⟨hb, h1, h2, h3⟩ := finishWrite_ok h
    have hmapeq := allSomeStrs_spec hs
    have hperm : List.Perm ((sortStrs skeys).map (fun k => (some k : Option String)))
        (a.map Prod.fst) := by
      rw [← hmapeq]
      exact (List.perm_insertionSort strLe skeys).map _
    refine ⟨⟨(sortStrs skeys).map (fun k => (some k : Option String)), ?_, hperm, hb⟩,
      h1, h2, h3⟩
    intro k hk
    exact hperm.mem_iff.mp hk

/-! ### Sorted output: strict ordering of point ids -/

theorem sortPts_pairwise_strict {l : List (String × Coords)}
    (hnd : (l.map Prod.fst).Nodup) :
    (sortPts l).Pairwise (fun pq qr => keyLtB (ptKey pq.1) (ptKey qr.1) = true) := by
  have hs : (sortPts l).Pairwise ptPairLe := List.sorted_insertionSort ptPairLe l
  have hperm : List.Perm (sortPts l) l := List.perm_insertionSort ptPairLe l
  have hnd' : ((sortPts l).map Prod.fst).Nodup := by
    rw [(hperm.map Prod.fst).nodup_iff]
    exact hnd
  have hpw : (sortPts l).Pairwise (fun pq qr => pq.1 ≠ qr.1) := List.pairwise_map.mp hnd'
  refine (hs.and hpw).imp fun {pq qr} h => ?_
  obtain ⟨hle, hne⟩ := h
  rcases hlt : keyLtB (ptKey pq.1) (ptKey qr.1) with _ | _
  · exact absurd (ptKey_inj (keyLtB_connex hlt hle)) hne
  · rfl

theorem keyLtB_specOrdered {a b : String} (h : keyLtB (ptKey a) (ptKey b) = true) :
    specOrdered a b := by
  unfold keyLtB ptKey at h
  unfold specOrdered
  rcases hda : pyIsdigit a with _ | _ <;> rcases hdb : pyIsdigit b with _ | _ <;>
    simp only [hda, hdb, Bool.false_eq_true, if_false, if_true] at h <;>
    simp only [Bool.or_eq_true, Bool.and_eq_true, decide_eq_true_eq] at h <;>
    refine ⟨?_, ?_, ?_, ?_⟩ <;> intro h1 h2
  · exact Bool.noConfusion h1
  · rcases h with h | ⟨_, hs⟩
    · exact absurd h (lt_irrefl _)
    · exact hs
  · exact Bool.noConfusion h2
  · exact Bool.noConfusion h1
  · exact Bool.noConfusion h1
  · exact Bool.noConfusion h2
  · rcases h with h | ⟨he, _⟩
    · exact le_of_lt h
    · exact le_of_eq he
  · exact Bool.noConfusion h1
  · exact Bool.noConfusion h2
  · exact Bool.noConfusion h1
  · exact Bool.noConfusion h1
  · exact h
  · exact h
  · exact Bool.noConfusion h1
  · exact Bool.noConfusion h1
  · exact Bool.noConfusion h2

/-! ### Summing written point counts -/

theorem sum_lookup_nodup (a : ImgDict) (hnd : (a.map Prod.fst).Nodup) :
    ((a.map Prod.fst).map (fun k => ((lookupA a k).getD []).length)).sum
      = (a.map (fun p => p.2.length)).sum := by
  induction a with
  | nil => simp
  | cons pr r ih =>
    obtain ⟨k0, m⟩ := pr
    simp only [List.map_cons, List.nodup_cons] at hnd
    obtain ⟨hk0, hr⟩ := hnd
    simp only [List.map_cons, List.sum_cons]
    have h1 : ((lookupA ((k0, m) :: r) k0).getD []).length = m.length := by
      simp [lookupA]
    have hmap : (r.map Prod.fst).map (fun k => ((lookupA ((k0, m) :: r) k).getD []).length)
        = (r.map Prod.fst).map (fun k => ((lookupA r k).getD []).length) := by
      apply List.map_congr_left
      intro k hk
      have : ¬k0 = k := fun hh => hk0 (hh ▸ hk)
      simp [lookupA, this]
    rw [h1, hmap, ih hr]

theorem sum_lookup_perm (a : ImgDict) (hnd : (a.map Prod.fst).Nodup)
    {ks : List (Option String)} (hperm : List.Perm ks (a.map Prod.fst)) :
    (ks.map (fun k => ((lookupA a k).getD []).length)).sum
      = (a.map (fun p => p.2.length)).sum := by
  rw [(hperm.map (fun k => ((lookupA a k).getD []).length)).sum_eq, sum_lookup_nodup a hnd]

/-! ### Claims -/

/-- C1: with no filters, whenever the same (image name, point id) key is
yielded by the record parser more than once across the ordered input files —
within one file or across files — the merged accumulator holds the (x, y)
value of the first occurrence in processing order, one duplicate diagnostic
(`dupInSource` within a file, `dupAcross` across files) is emitted for each
later occurrence, and the later values are discarded (the lookup returns the
first value). -/
theorem c1_first_wins_global (files : List FileInput) (img pt : Option String)
    (hc : (merge_xml_files files none none).crashed = false)
    (hocc : 2 ≤ occCount (recStream files) img pt) :
    lookup2 (merge_xml_files files none none).data img pt
        = firstVal (recStream files) img pt ∧
    dupDiagCount (merge_xml_files files none none).diags img pt
        = occCount (recStream files) img pt - 1 := by
  refine ⟨?_, merge_dup files hc img pt⟩
  rw [merge_lookup files none none hc img pt]
  simp [toFilterSet, passesFilter_none]

theorem c1_first_wins_global_witness :
    ((merge_xml_files [wFileDup, wFileDup2] none none).crashed = false ∧
      2 ≤ occCount (recStream [wFileDup, wFileDup2]) (some "imA") (some "1")) ∧
    (lookup2 (merge_xml_files [wFileDup, wFileDup2] none none).data (some "imA") (some "1")
        = firstVal (recStream [wFileDup, wFileDup2]) (some "imA") (some "1") ∧
      dupDiagCount (merge_xml_files [wFileDup, wFileDup2] none none).diags
          (some "imA") (some "1")
        = occCount (recStream [wFileDup, wFileDup2]) (some "imA") (some "1") - 1) :=
  ⟨⟨by decide, by decide⟩,
    c1_first_wins_global [wFileDup, wFileDup2] (some "imA") (some "1")
      (by decide) (by decide)⟩

theorem passesFilter_iff (keepS exclS : Option (List String)) (pt : Option String) :
    passesFilter keepS exclS pt = true
      ↔ ((∀ s, keepS = some s → optMem pt s = true) ∧
         (∀ s, exclS = some s → optMem pt s = false)) := by
  rcases keepS with _ | ks <;> rcases exclS with _ | es <;>
    simp [passesFilter]

/-- C2: a parsed point id (one that occurs in the record stream of a
non-crashing run) is present in the merged accumulator iff (the keep set is
absent OR the id is in the keep set) AND (the exclude set is absent OR the id
is not in the exclude set); the sets are the ones the engine derives from the
argument lists (`set(lst) if lst else None`, so an empty list is an absent
set).  In particular an id in both sets fails the second conjunct and is
dropped: exclusion takes priority. -/
theorem c2_filter_presence (files : List FileInput)
    (keep_list exclude_list : Option (List String)) (img pt : Option String)
    (hc : (merge_xml_files files keep_list exclude_list).crashed = false)
    (hocc : 0 < occCount (recStream files) img pt) :
    (lookup2 (merge_xml_files files keep_list exclude_list).data img pt).isSome
      ↔ ((∀ s, toFilterSet keep_list = some s → optMem pt s = true) ∧
         (∀ s, toFilterSet exclude_list = some s → optMem pt s = false)) := by
  rw [merge_lookup files keep_list exclude_list hc img pt, ← passesFilter_iff]
  rcases hpass : passesFilter (toFilterSet keep_list) (toFilterSet exclude_list) pt with _ | _
  · simp
  · have hfv := (occCount_pos_iff_firstVal (recStream files) img pt).mp hocc
    simp [hfv]

theorem c2_filter_presence_witness :
    ((merge_xml_files [wFileTwoPts] (some ["1", "7"]) (some ["9"])).crashed = false ∧
      0 < occCount (recStream [wFileTwoPts]) (some "imA") (some "1")) ∧
    ((lookup2 (merge_xml_files [wFileTwoPts] (some ["1", "7"]) (some ["9"])).data
          (some "imA") (some "1")).isSome
      ↔ ((∀ s, toFilterSet (some ["1", "7"]) = some s → optMem (some "1") s = true) ∧
         (∀ s, toFilterSet (some ["9"]) = some s → optMem (some "1") s = false))) :=
  ⟨⟨by decide, by decide⟩,
    c2_filter_presence [wFileTwoPts] (some ["1", "7"]) (some ["9"]) (some "imA") (some "1")
      (by decide) (by decide)⟩

theorem recStream_pair (A B : FileInput) :
    recStream [A, B] = fileStream A ++ fileStream B := by
  simp [recStream]

/-- C6: with no filters, merging `[A, B]` and merging `[B, A]` yield
accumulators with exactly the same set of (image name, point id) keys; each
result's value at a key is one of the values yielded for that key by the two
files, so the orders can differ only in which duplicate's value is kept,
never in which keys are present. -/
theorem c6_key_set_order_insensitive (A B : FileInput) (img pt : Option String)
    (hc : (merge_xml_files [A, B] none none).crashed = false) :
    ((lookup2 (merge_xml_files [A, B] none none).data img pt).isSome
      ↔ (lookup2 (merge_xml_files [B, A] none none).data img pt).isSome) ∧
    (∀ c, lookup2 (merge_xml_files [A, B] none none).data img pt = some c →
        c ∈ valuesAt (recStream [A, B]) img pt) ∧
    (∀ c, lookup2 (merge_xml_files [B, A] none none).data img pt = some c →
        c ∈ valuesAt (recStream [A, B]) img pt) := by
  have hboth : (parse_xml_file A).crashed = false ∧ (parse_xml_file B).crashed = false := by
    rw [merge_crashed_eq] at hc
    simpa using hc
  have hcBA : (merge_xml_files [B, A] none none).crashed = false := by
    rw [merge_crashed_eq]
    simp [hboth.1, hboth.2]
  have hps : passesFilter (toFilterSet none) (toFilterSet none) pt = true := rfl
  have hA := merge_lookup [A, B] none none hc img pt
  have hB := merge_lookup [B, A] none none hcBA img pt
  rw [hps, if_pos rfl] at hA hB
  have hiff : (firstVal (recStream [A, B]) img pt).isSome
      ↔ (firstVal (recStream [B, A]) img pt).isSome := by
    rw [← occCount_pos_iff_firstVal, ← occCount_pos_iff_firstVal,
      recStream_pair, recStream_pair, occCount_append, occCount_append]
    omega
  refine ⟨by rw [hA, hB]; exact hiff, ?_, ?_⟩
  · intro c hcv
    rw [hA] at hcv
    exact firstVal_mem_valuesAt hcv
  · intro c hcv
    rw [hB] at hcv
    have hm := firstVal_mem_valuesAt hcv
    rw [recStream_pair, valuesAt_append, List.mem_append] at hm
    rw [recStream_pair, valuesAt_append, List.mem_append]
    exact hm.symm

theorem c6_key_set_order_insensitive_witness :
    (merge_xml_files [wFileDup, wFileTwoPts] none none).crashed = false ∧
    ((lookup2 (merge_xml_files [wFileDup, wFileTwoPts] none none).data
          (some "imA") (some "9")).isSome
      ↔ (lookup2 (merge_xml_files [wFileTwoPts, wFileDup] none none).data
          (some "imA") (some "9")).isSome) :=
  ⟨by decide,
    (c6_key_set_order_insensitive wFileDup wFileTwoPts (some "imA") (some "9")
      (by decide)).1⟩

/-- C7: a file that does not exist, cannot be parsed as XML, or has the wrong
root tag contributes zero records: the merge state gains exactly the
corresponding non-fatal diagnostic (its data is unchanged), and the engine
continues with the remaining files. -/
theorem c7_bad_file_skipped (keepS exclS : Option (List String)) (st : RunSt)
    (f : FileInput) (rest : List FileInput) (d : Diag)
    (hst : st.crashed = false) (hbad : diagForBad f = some d) :
    mergeFrom keepS exclS st (f :: rest)
      = mergeFrom keepS exclS { st with diags := st.diags ++ [d] } rest := by
  rcases f with _ | _ | ⟨tag, imgs⟩
  · simp only [diagForBad, Option.some_inj] at hbad
    subst hbad
    rw [mergeFrom, mergeStep_eq_missing keepS exclS st hst]
    rfl
  · simp only [diagForBad, Option.some_inj] at hbad
    subst hbad
    rw [mergeFrom,
      mergeStep_eq_parse keepS exclS st FileInput.unparsable hst (by simp) (by rfl)]
    rfl
  · simp only [diagForBad] at hbad
    split_ifs at hbad with htag
    · simp only [Option.some_inj] at hbad
      subst hbad
      have hparse : parse_xml_file (.parsed tag imgs) = ⟨[.schemaMismatch], [], false⟩ := by
        simp [parse_xml_file, htag]
      rw [mergeFrom, mergeStep_eq_parse keepS exclS st (FileInput.parsed tag imgs) hst
        (by simp) (by rw [hparse])]
      rw [hparse]
      rfl

theorem c7_bad_file_skipped_witness :
    ((⟨[], [], false⟩ : RunSt).crashed = false ∧
      diagForBad FileInput.missing = some Diag.missingSource) ∧
    mergeFrom none none ⟨[], [], false⟩ [FileInput.missing, wFileTwoPts]
      = mergeFrom none none ⟨[Diag.missingSource], [], false⟩ [wFileTwoPts] :=
  ⟨⟨by decide, by decide⟩,
    c7_bad_file_skipped none none ⟨[], [], false⟩ FileInput.missing [wFileTwoPts]
      Diag.missingSource (by decide) (by decide)⟩

/-- C9: a filter string whose comma-separated tokens are all empty after
stripping (for example ",, ,") yields an empty parsed list, which the merge
engine's falsy test turns into no filter at all: merging with it — as keep
or as exclude — is literally the same function of the input files as merging
with an absent filter. -/
theorem c9_blank_filter_like_absent (s : String)
    (hblank : ∀ t ∈ pySplitComma s, pyStrip t = "")
    (files : List FileInput) (keep other : Option (List String)) :
    merge_xml_files files (parse_list (some s)) other
        = merge_xml_files files none other ∧
    merge_xml_files files keep (parse_list (some s))
        = merge_xml_files files keep none := by
  have hset : toFilterSet (parse_list (some s)) = none := by
    by_cases hs : s = ""
    · simp [parse_list, hs, toFilterSet]
    · have hnil : ((pySplitComma s).map pyStrip).filter (fun it => it ≠ "") = [] := by
        rw [List.filter_eq_nil]
        intro t ht
        rw [List.mem_map] at ht
        obtain ⟨u, hu, rfl⟩ := ht
        simp [hblank u hu]
      have hpl : parse_list (some s)
          = some (((pySplitComma s).map pyStrip).filter (fun it => it ≠ "")) := by
        rw [show parse_list (some s)
            = if s = "" then none
              else some (((pySplitComma s).map pyStrip).filter (fun it => it ≠ ""))
          from rfl, if_neg hs]
      rw [hpl, hnil]
      rfl
  constructor
  · unfold merge_xml_files
    rw [hset]
    rfl
  · unfold merge_xml_files
    rw [hset]
    rfl

theorem c9_blank_filter_like_absent_witness :
    (∀ t ∈ pySplitComma ",, ,", pyStrip t = "") ∧
    (merge_xml_files [wFileTwoPts] (parse_list (some ",, ,")) (some ["9"])
        = merge_xml_files [wFileTwoPts] none (some ["9"]) ∧
      merge_xml_files [wFileTwoPts] (some ["1"]) (parse_list (some ",, ,"))
        = merge_xml_files [wFileTwoPts] (some ["1"]) none) :=
  ⟨by decide,
    c9_blank_filter_like_absent ",, ," (by decide) [wFileTwoPts] (some ["1"]) (some ["9"])⟩

/-- C10: every image name in the merged accumulator maps to at least one
point, and in any successfully written output every image element contains
at least one measurement child — an image whose measurements were all
malformed, duplicates, or filtered out never appears as an empty image. -/
theorem c10_no_empty_images (files : List FileInput)
    (keep_list exclude_list : Option (List String)) (out : WOut)
    (hw : write_xml_output (merge_xml_files files keep_list exclude_list).data
        = Except.ok out) :
    (∀ pr ∈ (merge_xml_files files keep_list exclude_list).data, pr.2 ≠ []) ∧
    (∀ wi ∈ out.images, wi.pts ≠ []) := by
  obtain ⟨hne, hnd⟩ := merge_inv files keep_list exclude_list
  refine ⟨hne, ?_⟩
  obtain ⟨⟨ks, hksmem, hperm, hb⟩, -, -, -⟩ := write_ok_parts hw
  obtain ⟨hmap, hlen, hmem⟩ := buildImages_ok hb
  intro wi hwi
  obtain ⟨k, hk, hbi⟩ := hmem wi hwi
  have hkmem : k ∈ (merge_xml_files files keep_list exclude_list).data.map Prod.fst :=
    hksmem k hk
  rcases hl : lookupA (merge_xml_files files keep_list exclude_list).data k with _ | pts
  · exact absurd hkmem ((lookupA_eq_none_iff _ _).mp hl)
  · have hptsne : pts ≠ [] := hne (k, pts) (lookupA_mem hl)
    have hplen := buildImage_pts_length hbi
    rw [hl] at hplen
    intro hcon
    rw [hcon] at hplen
    simp only [List.length_nil, Option.getD_some] at hplen
    exact hptsne (List.length_eq_zero.mp hplen.symm)

theorem c10_no_empty_images_witness :
    (write_xml_output (merge_xml_files [wFileDup, wFileTwoPts] none none).data
        = Except.ok
            ⟨[⟨some "imA", [("1", "1.00000000000000 2.00000000000000"),
                            ("9", "3.00000000000000 4.00000000000000")]⟩], 1, 2, none⟩) ∧
    (∀ wi ∈ (⟨[⟨some "imA", [("1", "1.00000000000000 2.00000000000000"),
                             ("9", "3.00000000000000 4.00000000000000")]⟩], 1, 2, none⟩
        : WOut).images, wi.pts ≠ []) :=
  ⟨by decide,
    (c10_no_empty_images [wFileDup, wFileTwoPts] none none _ (by decide)).2⟩

/-- C8 counterexample: `write_xml_output` has no `return` statement.  On an
accumulator whose single image holds a single point, the write succeeds and
one image with one point is actually written, yet the function's return
value is `None` — it returns no count to the caller (the counts appear only
in the stderr summary). -/
theorem c8_counterexample :
    write_xml_output [(some "imA", [(some "1", (PyFloat.finite false (mkRat 1 1),
                                                PyFloat.finite false (mkRat 2 1)))])]
      = Except.ok ⟨[⟨some "imA", [("1", "1.00000000000000 2.00000000000000")]⟩], 1, 1, none⟩ ∧
    (⟨[⟨some "imA", [("1", "1.00000000000000 2.00000000000000")]⟩], 1, 1, none⟩
        : WOut).retVal = none ∧
    (⟨[⟨some "imA", [("1", "1.00000000000000 2.00000000000000")]⟩], 1, 1, none⟩
        : WOut).images.length = 1 := by
  refine ⟨by decide, rfl, rfl⟩

/-- C8 amended: the writer returns no value; instead it itself reports to the
error stream a summary whose two counts equal the number of image elements
and the total number of measurement elements actually written. -/
theorem c8_reported_counts (files : List FileInput)
    (keep_list exclude_list : Option (List String)) (out : WOut)
    (hw : write_xml_output (merge_xml_files files keep_list exclude_list).data
        = Except.ok out) :
    out.reportedImages = out.images.length ∧
    out.reportedPoints = (out.images.map (fun wi => wi.pts.length)).sum ∧
    out.retVal = none := by
  obtain ⟨hne, hnd⟩ := merge_inv files keep_list exclude_list
  obtain ⟨⟨ks, hksmem, hperm, hb⟩, h1, h2, h3⟩ := write_ok_parts hw
  obtain ⟨hmap, hlen, hmem⟩ := buildImages_ok hb
  refine ⟨?_, ?_, h3⟩
  · rw [h1, hlen, hperm.length_eq, List.length_map]
  · rw [h2, ← sum_lookup_perm _ hnd.1 hperm, ← hmap]

theorem c8_reported_counts_witness :
    (write_xml_output (merge_xml_files [wFileTwoPts, wFilePt2] none none).data
        = Except.ok
            (⟨[⟨some "imA", [("1", "1.00000000000000 2.00000000000000"),
        ("2", "7.00000000000000 8.00000000000000"),
        ("9", "3.00000000000000 4.00000000000000")]⟩], 1, 3, none⟩ : WOut)) ∧
    ((⟨[⟨some "imA", [("1", "1.00000000000000 2.00000000000000"),
        ("2", "7.00000000000000 8.00000000000000"),
        ("9", "3.00000000000000 4.00000000000000")]⟩], 1, 3, none⟩ : WOut).reportedImages
        = (⟨[⟨some "imA", [("1", "1.00000000000000 2.00000000000000"),
        ("2", "7.00000000000000 8.00000000000000"),
        ("9", "3.00000000000000 4.00000000000000")]⟩], 1, 3, none⟩ : WOut).images.length) :=
  ⟨by decide,
    (c8_reported_counts [wFileTwoPts, wFilePt2] none none
        (⟨[⟨some "imA", [("1", "1.00000000000000 2.00000000000000"),
        ("2", "7.00000000000000 8.00000000000000"),
        ("9", "3.00000000000000 4.00000000000000")]⟩], 1, 3, none⟩ : WOut) (by decide)).1⟩

theorem bigId_isdigit : pyIsdigit bigId = true := by
  unfold pyIsdigit bigId
  rw [Bool.and_eq_true]
  constructor
  · rw [show (String.mk (List.replicate 999999 '1')).data
        = '1' :: List.replicate 999998 '1' from rfl]
    rfl
  · rw [List.all_eq_true]
    intro c hc
    rw [List.eq_of_mem_replicate hc]
    decide

theorem bigId_length : bigId.length = 999999 := by
  unfold bigId
  rw [show (String.mk (List.replicate 999999 '1')).length
      = (List.replicate 999999 '1').length from rfl, List.length_replicate]

theorem ptKey_bigId : ptKey bigId = (999999, bigId) := by
  unfold ptKey
  rw [bigId_isdigit, if_pos rfl, bigId_length]

theorem strLt_bigId_bang : pyStrLt bigId "!" = false := by
  unfold pyStrLt bigId
  rw [show (String.mk (List.replicate 999999 '1')).data
      = '1' :: List.replicate 999998 '1' from rfl]
  rw [show ("!" : String).data = ['!'] from rfl]
  have h1 : ¬('1' < '!') := by decide
  have h2 : '!' < '1' := by decide
  simp [listStrLt, h1, h2]

theorem keyLt_bigId_bang : keyLtB (ptKey bigId) (ptKey "!") = false := by
  rw [ptKey_bigId, show ptKey "!" = (999999, "!") from by decide]
  unfold keyLtB
  simp [strLt_bigId_bang]

theorem sortPts_cex :
    sortPts [("!", zeroC), (bigId, zeroC)]
      = [("!", zeroC), (bigId, zeroC)] := by
  have hle : ptPairLe ("!", zeroC) (bigId, zeroC) := keyLt_bigId_bang
  unfold sortPts
  rw [show List.insertionSort ptPairLe [("!", zeroC), (bigId, zeroC)]
      = List.orderedInsert ptPairLe ("!", zeroC) [(bigId, zeroC)] from rfl]
  rw [List.orderedInsert, if_pos hle]

/-- C3 is false as stated: the writer's sort key uses the sentinel `999999`,
so an all-digit id of length 999999 is NOT placed before non-digit ids.  On
an image holding the non-digit id "!" and the 999999-digit id `bigId`, the
writer succeeds and serializes "!" first — a non-digit id before a digit id,
contradicting "places every non-digit id after all digit ids". -/
theorem c3_counterexample :
    pyIsdigit bigId = true ∧ pyIsdigit "!" = false ∧
    write_xml_output c3CexDict
      = Except.ok ⟨[⟨some "im", [("!", fmtPair zeroC),
                                 (bigId, fmtPair zeroC)]⟩], 1, 2, none⟩ := by
  refine ⟨bigId_isdigit, by decide, ?_⟩
  have hbi : buildImage c3CexDict (some "im")
      = Except.ok ⟨some "im", [("!", fmtPair zeroC),
                               (bigId, fmtPair zeroC)]⟩ := by
    rw [show buildImage c3CexDict (some "im")
        = match allSomeKeys [(some "!", zeroC), (some bigId, zeroC)] with
          | none => Except.error PyError.attributeError
          | some pts' => Except.ok ⟨some "im", (sortPts pts').map (fun p => (p.1, fmtPair p.2))⟩
      from rfl]
    rw [show allSomeKeys [(some "!", zeroC), (some bigId, zeroC)]
        = some [("!", zeroC), (bigId, zeroC)] from rfl]
    rw [show (match (some [("!", zeroC), (bigId, zeroC)] : Option (List (String × Coords))) with
          | none => Except.error PyError.attributeError
          | some pts' => Except.ok (⟨some "im",
              (sortPts pts').map (fun p => (p.1, fmtPair p.2))⟩ : WImage))
        = Except.ok ⟨some "im",
            (sortPts [("!", zeroC), (bigId, zeroC)]).map (fun p => (p.1, fmtPair p.2))⟩ from rfl]
    rw [sortPts_cex]
    rfl
  rw [show write_xml_output c3CexDict
      = finishWrite c3CexDict [some "im"] from rfl]
  rw [show finishWrite c3CexDict [some "im"]
      = match buildImages c3CexDict [some "im"] with
        | Except.error e => Except.error e
        | Except.ok ws => Except.ok ⟨ws, 1, 2, none⟩ from rfl]
  rw [show buildImages c3CexDict [some "im"]
      = match buildImage c3CexDict (some "im") with
        | Except.error e => Except.error e
        | Except.ok wi => Except.ok [wi] from rfl]
  rw [hbi]

theorem allSomeKeys_fst_nodup {pts : PtMap} {pts' : List (String × Coords)}
    (h : allSomeKeys pts = some pts') (hnd : (pts.map Prod.fst).Nodup) :
    (pts'.map Prod.fst).Nodup := by
  have h2 := (allSomeKeys_spec h).2
  have hmm : (pts'.map Prod.fst).map (fun x => (some x : Option String)) = pts.map Prod.fst := by
    rw [← h2, List.map_map, List.map_map]
    rfl
  rw [← hmm] at hnd
  exact hnd.of_map _

/-- C3 amended: in every successfully written output of the merge pipeline,
each image's measurement children are ordered by the writer's composite key:
all-digit ids are mutually ordered by (string length, then lexicographic);
non-digit ids are mutually ordered lexicographically; a non-digit id precedes
an all-digit id only when that digit id has length at least 999999 (the sort
key's sentinel), and an all-digit id of length below 999999 always precedes
every non-digit id.  (The original claim, which places every non-digit id
after all digit ids without the length-999999 proviso, is refuted by
`c3_counterexample`.)  In particular the ids ["10", "2", "abc", "1"]
serialize in the order ["1", "2", "10", "abc"] — see the witness. -/
theorem c3_sorted_output (files : List FileInput)
    (keep_list exclude_list : Option (List String)) (out : WOut)
    (hw : write_xml_output (merge_xml_files files keep_list exclude_list).data
        = Except.ok out) :
    ∀ wi ∈ out.images, (wi.pts.map Prod.fst).Pairwise specOrdered := by
  obtain ⟨hne, hnd⟩ := merge_inv files keep_list exclude_list
  obtain ⟨⟨ks, hksmem, hperm, hb⟩, -, -, -⟩ := write_ok_parts hw
  obtain ⟨-, -, hmem⟩ := buildImages_ok hb
  intro wi hwi
  obtain ⟨k, hk, hbi⟩ := hmem wi hwi
  obtain ⟨-, pts', hks, hpts⟩ := buildImage_ok hbi
  have hptsnd : ((((lookupA (merge_xml_files files keep_list exclude_list).data k).getD
      []).map Prod.fst)).Nodup := by
    rcases hl : lookupA (merge_xml_files files keep_list exclude_list).data k with _ | pts
    · simp
    · exact hnd.2 (k, pts) (lookupA_mem hl)
  have hnd' : (pts'.map Prod.fst).Nodup := allSomeKeys_fst_nodup hks hptsnd
  have hstrict := sortPts_pairwise_strict hnd'
  have hids : wi.pts.map Prod.fst = (sortPts pts').map Prod.fst := by
    rw [hpts, List.map_map]
    rfl
  rw [hids]
  rw [List.pairwise_map]
  exact hstrict.imp fun h => keyLtB_specOrdered h

theorem c3_sorted_output_witness :
    (write_xml_output (merge_xml_files [wFileSortEx] none none).data
        = Except.ok
            (⟨[⟨some "imA", [("1", "0.00000000000000 0.00000000000000"),
                             ("2", "0.00000000000000 0.00000000000000"),
                             ("10", "0.00000000000000 0.00000000000000"),
                             ("abc", "0.00000000000000 0.00000000000000")]⟩], 1, 4, none⟩
              : WOut)) ∧
    (∀ wi ∈ (⟨[⟨some "imA", [("1", "0.00000000000000 0.00000000000000"),
                             ("2", "0.00000000000000 0.00000000000000"),
                             ("10", "0.00000000000000 0.00000000000000"),
                             ("abc", "0.00000000000000 0.00000000000000")]⟩], 1, 4, none⟩
        : WOut).images, (wi.pts.map Prod.fst).Pairwise specOrdered) :=
  ⟨by decide,
    c3_sorted_output [wFileSortEx] none none _ (by decide)⟩

theorem digitChar_isDigit {d : Nat} (h : d < 10) : (Nat.digitChar d).isDigit = true := by
  interval_cases d <;> decide

theorem natDigitsAux_ne_nil (fuel n : Nat) : natDigitsAux (fuel + 1) n ≠ [] := by
  rw [natDigitsAux]
  split_ifs <;> simp

theorem natDigitsAux_digits : ∀ (fuel n : Nat), ∀ c ∈ natDigitsAux fuel n, c.isDigit = true := by
  intro fuel
  induction fuel with
  | zero => intro n c hc; simp [natDigitsAux] at hc
  | succ f ih =>
    intro n c hc
    rw [natDigitsAux] at hc
    split_ifs at hc with h
    · simp only [List.mem_singleton] at hc
      subst hc
      exact digitChar_isDigit h
    · rw [List.mem_append] at hc
      rcases hc with hc | hc
      · exact ih _ c hc
      · simp only [List.mem_singleton] at hc
        subst hc
        exact digitChar_isDigit (Nat.mod_lt _ (by norm_num))

theorem fmt14Mag_shape (num den : Nat) :
    ∃ ip f, fmt14Mag num den = String.mk ip ++ "." ++ String.mk f ∧ ip ≠ [] ∧
      (∀ c ∈ ip, c.isDigit) ∧ f.length = 14 ∧ (∀ c ∈ f, c.isDigit) := by
  refine ⟨_, _, rfl, natDigitsAux_ne_nil _ _, natDigitsAux_digits _ _, ?_, ?_⟩
  · simp [frac14digits]
  · intro c hc
    simp only [frac14digits, List.mem_map, List.mem_range] at hc
    obtain ⟨i, hi, rfl⟩ := hc
    exact digitChar_isDigit (Nat.mod_lt _ (by norm_num))

theorem fmt14_decimal14 (b : Bool) (mag : ℚ) : decimal14 (fmt14 (.finite b mag)) := by
  obtain ⟨ip, f, heq, hne, hipd, hlen, hfd⟩ := fmt14Mag_shape mag.num.natAbs mag.den
  refine ⟨if b then "-" else "", ip, f, ?_, ?_, hne, hipd, hlen, hfd⟩
  · rw [show fmt14 (.finite b mag)
        = (if b then "-" else "") ++ fmt14Mag mag.num.natAbs mag.den from rfl,
      heq, String.append_assoc, String.append_assoc, String.append_assoc]
  · split_ifs <;> simp

theorem string_data_append (s t : String) : (s ++ t).data = s.data ++ t.data := rfl

theorem decimal14_has_dot {s : String} (h : decimal14 s) : '.' ∈ s.data := by
  obtain ⟨sgn, ip, f, heq, -, -, -, -, -⟩ := h
  rw [heq, string_data_append, string_data_append, string_data_append]
  simp [show ("." : String).data = ['.'] from rfl]

/-- C4 is false as stated: its universal part — every stored coordinate pair
is emitted as two decimal numbers with exactly 14 fractional digits — fails
at a reachable stored pair.  CPython's `float("1e400")` saturates to `inf`
without raising, so a record with `PtIm` text "1e400 2" is accepted and the
pair (inf, 2.0) is stored; the writer then emits the text
"inf 2.00000000000000", whose first component "inf" contains no decimal
point and hence is not a decimal number with 14 fractional digits. -/
theorem c4_counterexample :
    merge_xml_files [wFileOverflow] none none
      = ⟨[], [(some "im", [(some "7", (PyFloat.inf false,
                                       PyFloat.finite false (mkRat 2 1)))])], false⟩ ∧
    write_xml_output [(some "im", [(some "7", (PyFloat.inf false,
                                               PyFloat.finite false (mkRat 2 1)))])]
      = Except.ok ⟨[⟨some "im", [("7", "inf 2.00000000000000")]⟩], 1, 1, none⟩ ∧
    fmt14 (PyFloat.inf false) = "inf" ∧
    ¬ decimal14 (fmt14 (PyFloat.inf false)) := by
  refine ⟨by decide, by decide, rfl, fun h => ?_⟩
  have hd := decimal14_has_dot h
  rw [show fmt14 (PyFloat.inf false) = "inf" from rfl] at hd
  simp [show ("inf" : String).data = ['i', 'n', 'f'] from rfl] at hd

/-- C4 amended: every stored coordinate pair both of whose components are
finite is emitted as two space-separated decimal numbers with exactly 14
fractional digits (a component that overflowed `float` conversion to
infinity is emitted as `inf`/`-inf` instead — see `c4_counterexample`); the
finite pair (1.5, -2.25) is emitted exactly as
"1.50000000000000 -2.25000000000000", and the record parser reads that text
back as exactly (1.5, -2.25). -/
theorem c4_fixed14_round_trip :
    (∀ (bx : Bool) (mx : ℚ) (cy : Bool) (my : ℚ),
        fmtPair (.finite bx mx, .finite cy my)
            = fmt14 (.finite bx mx) ++ " " ++ fmt14 (.finite cy my) ∧
        decimal14 (fmt14 (.finite bx mx)) ∧ decimal14 (fmt14 (.finite cy my))) ∧
    fmtPair (.finite false (mkRat 3 2), .finite true (mkRat 9 4))
        = "1.50000000000000 -2.25000000000000" ∧
    parse_xml_file (.parsed rootTag
        [⟨some (some "im"),
          [⟨some (some "7"), some (some "1.50000000000000 -2.25000000000000")⟩]⟩])
      = ⟨[], [(some "im", [(some "7", (PyFloat.finite false (mkRat 3 2),
                                       PyFloat.finite true (mkRat 9 4)))])], false⟩ :=
  ⟨fun bx mx cy my => ⟨rfl, fmt14_decimal14 bx mx, fmt14_decimal14 cy my⟩,
    by decide, by decide⟩

/-- C5 (code bug): the claim — a record missing a required field, or with
fewer than two coordinate tokens, or with a non-numeric token, yields a
non-fatal diagnostic, is omitted, and parsing continues — reflects the
spec's error-handling design, and the code honours it for a missing
`NamePt`/`PtIm` child and for bad tokens; but for a record whose `PtIm`
element is present and empty (ElementTree `text = None`, a well-formed-XML
case whose "coordinate text" tokenizes into zero tokens),
`pt_im_elem.text.strip()` raises an uncaught `AttributeError`: no diagnostic
is emitted, and the remaining records of the file (here point "2") are never
parsed.  This theorem evaluates the parser on that failing input: the run
crashes with no diagnostics and an empty mapping, and the whole merge run
crashes too. -/
theorem c5_empty_ptim_crashes :
    parse_xml_file wFileEmptyPtIm = ⟨[], [], true⟩ ∧
    lookup2 (parse_xml_file wFileEmptyPtIm).data (some "im") (some "2") = none ∧
    (merge_xml_files [wFileEmptyPtIm] none none).crashed = true := by
  refine ⟨by decide, by decide, by decide⟩
